import Mathlib

/-!
# Verification of the AL-OCR document-intelligence service

A shallow embedding, in Lean 4, of the parts of the AL-OCR service that the
specification's claims are about:

* the confidence scorer (`ocr_service/modules/confidence.py`),
* the layout classifier (`ocr_service/modules/layout.py`),
* the AI-provider set with fallback (`ocr_service/modules/advanced_recon.py`,
  `ocr_service/modules/ai_providers.py`),
* the shared HTTP retry helper (`ocr_service/modules/ai_providers.py`),
* the event-trigger handler (`ocr_service/services/worker.py`),
* the processor (`ocr_service/modules/processor.py`) and the object-store
  adapter it uses (`ocr_service/services/storage.py`),
* the Redis queue worker (`ocr_service/worker.py`),
* the iterative OCR engine (`ocr_service/modules/ocr_engine.py`).

Python strings are modelled as `List Char`; Python floats are modelled as
exact rationals (`ℚ`), with Python's `round(x, 2)` modelled as round-half-even
on the exact value.  External collaborators that the spec declares out of
scope (image primitives, Tesseract, HTTP transports, Redis, S3) are modelled
as oracle parameters: each call site receives the collaborator's outcome
(a value, or the fact that the call raised) as an input, and the embedded
control flow is translated from the source line by line.
-/

namespace ALOCR

/-! ## Python `round(x, 2)` over exact rationals

Python rounds half to even.  `rhe x` is the integer nearest to `x`, ties to
the even integer; `round2 x` applies it at two decimal places. -/

def rhe (x : ℚ) : ℤ :=
  if x - (x.floor : ℚ) < 1/2 then x.floor
  else if 1/2 < x - (x.floor : ℚ) then x.floor + 1
  else if 2 ∣ x.floor then x.floor else x.floor + 1

def round2 (x : ℚ) : ℚ := ((rhe (100 * x) : ℤ) : ℚ) / 100

theorem rat_floor_eq_floor (x : ℚ) : x.floor = ⌊x⌋ := by
  rw [Rat.floor_def' x, Rat.floor_def]

theorem rat_floor_intCast (n : ℤ) : ((n : ℚ)).floor = n := by
  rw [rat_floor_eq_floor]
  exact Int.floor_intCast n

theorem rhe_zero : rhe 0 = 0 := by
  unfold rhe
  have h : ((0 : ℚ)).floor = 0 := by
    have h0 := rat_floor_intCast 0
    simpa using h0
  rw [h]
  norm_num

theorem int_floor_le_rhe (x : ℚ) : x.floor ≤ rhe x := by
  unfold rhe
  split_ifs <;> omega

theorem rhe_le_int_floor_add_one (x : ℚ) : rhe x ≤ x.floor + 1 := by
  unfold rhe
  split_ifs <;> omega

theorem rhe_nonneg (x : ℚ) (hx : 0 ≤ x) : 0 ≤ rhe x := by
  have h := int_floor_le_rhe x
  have h0 : (0 : ℤ) ≤ ⌊x⌋ := Int.le_floor.mpr (by exact_mod_cast hx)
  rw [rat_floor_eq_floor] at h
  omega

theorem rhe_le_hundred (x : ℚ) (hx : x ≤ 100) : rhe x ≤ 100 := by
  have hfl : ⌊x⌋ ≤ 100 := by
    have h : ⌊x⌋ ≤ ⌊(100 : ℚ)⌋ := Int.floor_le_floor hx
    simpa using h
  rcases lt_or_eq_of_le hfl with h99 | h100
  · have h := rhe_le_int_floor_add_one x
    rw [rat_floor_eq_floor] at h
    omega
  · have hxf : (100 : ℚ) ≤ x := by
      have h := Int.floor_le x
      rw [h100] at h
      exact_mod_cast h
    have hxeq : x = 100 := le_antisymm hx hxf
    subst hxeq
    unfold rhe
    have h : ((100 : ℚ)).floor = 100 := by
      have h0 := rat_floor_intCast 100
      simpa using h0
    rw [h]
    norm_num

/-- Computes `round2` at a concrete value, round-down case: if `100*x` lies in
`[n, n + 1/2)` then `round2 x = n/100`. -/
theorem round2_eq_down (x : ℚ) (n : ℤ) (h1 : (n : ℚ) ≤ 100 * x)
    (h2 : 100 * x - (n : ℚ) < 1/2) : round2 x = (n : ℚ) / 100 := by
  unfold round2 rhe
  have hfl : ((100 * x)).floor = n := by
    rw [rat_floor_eq_floor]
    refine Int.floor_eq_iff.mpr ⟨h1, ?_⟩
    linarith
  rw [hfl, if_pos h2]

/-- Computes `round2` at a concrete value, round-up case: if `100*x` lies in
`(n + 1/2, n + 1)` then `round2 x = (n+1)/100`. -/
theorem round2_eq_up (x : ℚ) (n : ℤ) (h1 : (n : ℚ) ≤ 100 * x)
    (h2 : 100 * x < (n : ℚ) + 1) (h3 : 1/2 < 100 * x - (n : ℚ)) :
    round2 x = ((n : ℚ) + 1) / 100 := by
  unfold round2 rhe
  have hfl : ((100 * x)).floor = n := by
    rw [rat_floor_eq_floor]
    refine Int.floor_eq_iff.mpr ⟨h1, ?_⟩
    linarith
  rw [hfl]
  rw [if_neg (by linarith), if_pos h3]
  push_cast
  ring

theorem round2_nonneg (x : ℚ) (hx : 0 ≤ x) : 0 ≤ round2 x := by
  unfold round2
  have h : (0 : ℤ) ≤ rhe (100 * x) := rhe_nonneg _ (by positivity)
  have h2 : (0 : ℚ) ≤ ((rhe (100 * x) : ℤ) : ℚ) := by exact_mod_cast h
  exact div_nonneg h2 (by norm_num)

theorem round2_le_one (x : ℚ) (hx : x ≤ 1) : round2 x ≤ 1 := by
  unfold round2
  have h : rhe (100 * x) ≤ 100 := rhe_le_hundred _ (by linarith)
  have h2 : ((rhe (100 * x) : ℤ) : ℚ) ≤ 100 := by exact_mod_cast h
  linarith

theorem round2_zero : round2 0 = 0 := by
  unfold round2
  rw [show (100 : ℚ) * 0 = 0 by ring, rhe_zero]
  norm_num

/-! ## Character classifiers

Python string predicates, restricted to the Basic Latin and Latin-1 ranges
(the character sets the service's scorer regex and marker list draw from).
All classifiers are expressed through `Char.toNat` code points. -/

/-- Python `str.isspace` / the whitespace removed by `str.strip`, on the
Latin-1 range: space, TAB..CR, NEL (133) and NBSP (160). -/
def pyIsSpace (c : Char) : Bool :=
  decide (c.toNat = 32 ∨ (9 ≤ c.toNat ∧ c.toNat ≤ 13) ∨ c.toNat = 133 ∨ c.toNat = 160)

/-- Python `str.isalnum` on the Latin-1 range: ASCII digits and letters, the
Latin-1 letters 192..255 without the two operators 215 and 247, and the
alphanumeric signs 170 178 179 181 185 186 188 189 190. -/
def pyIsAlnum (c : Char) : Bool :=
  decide ((48 ≤ c.toNat ∧ c.toNat ≤ 57) ∨ (65 ≤ c.toNat ∧ c.toNat ≤ 90) ∨
    (97 ≤ c.toNat ∧ c.toNat ≤ 122) ∨
    c.toNat ∈ ([170, 178, 179, 181, 185, 186, 188, 189, 190] : List ℕ) ∨
    (192 ≤ c.toNat ∧ c.toNat ≤ 255 ∧ c.toNat ≠ 215 ∧ c.toNat ≠ 247))

/-- Python regex `\w` (with Unicode semantics, on the Latin-1 range):
alphanumerics plus underscore. -/
def pyIsWordChar (c : Char) : Bool := pyIsAlnum c || decide (c.toNat = 95)

/-- Python `str.lower` on the Latin-1 range: ASCII uppercase and the Latin-1
uppercase letters 192..222 (minus the operator 215) shift by 32. -/
def pyLower (c : Char) : Char :=
  if 65 ≤ c.toNat ∧ c.toNat ≤ 90 then Char.ofNat (c.toNat + 32)
  else if 192 ≤ c.toNat ∧ c.toNat ≤ 222 ∧ c.toNat ≠ 215 then Char.ofNat (c.toNat + 32)
  else c

/-- The character class of the word regex in
`ocr_service/modules/confidence.py` line 47: ASCII letters plus the fourteen
accented letters a-acute 225, e-acute 233, i-acute 237, o-acute 243,
u-acute 250, u-diaeresis 252, n-tilde 241 and their uppercase forms
193 201 205 209 211 218 220. -/
def codeWordClass (c : Char) : Bool :=
  decide ((65 ≤ c.toNat ∧ c.toNat ≤ 90) ∨ (97 ≤ c.toNat ∧ c.toNat ≤ 122) ∨
    c.toNat ∈ ([193, 201, 205, 209, 211, 218, 220,
                225, 233, 237, 241, 243, 250, 252] : List ℕ))

/-- The character class the claim's regex uses instead: ASCII letters plus the
whole Latin-1 block 192..255.  The two non-letters 215 and 247 in that block
are excluded here: they are not word characters, so the word-boundary anchors
of the regex prevent them from starting or ending a match. -/
def claimWordClass (c : Char) : Bool :=
  decide ((65 ≤ c.toNat ∧ c.toNat ≤ 90) ∨ (97 ≤ c.toNat ∧ c.toNat ≤ 122) ∨
    (192 ≤ c.toNat ∧ c.toNat ≤ 255 ∧ c.toNat ≠ 215 ∧ c.toNat ≠ 247))

/-! ## Word-pattern counting

`re.findall` of a pattern of the shape `\b CLASS {2,} \b` over a class of word
characters.  Because every class character is a word character, no boundary
exists inside a run of class characters, so the matches are exactly the
maximal runs of class characters of length at least two whose neighbours (when
present) are not word characters.  The scan below counts those runs in one
left-to-right pass: `prevW` records whether the previous character was a word
character, `runLen` the length of the current class run, `leftOk` whether the
current run started at a word boundary. -/

structure WordScan where
  prevW : Bool
  runLen : Nat
  leftOk : Bool
  count : Nat

def wordStep (cls : Char → Bool) (st : WordScan) (c : Char) : WordScan :=
  if cls c then
    { prevW := pyIsWordChar c
      runLen := st.runLen + 1
      leftOk := if st.runLen = 0 then !st.prevW else st.leftOk
      count := st.count }
  else
    { prevW := pyIsWordChar c
      runLen := 0
      leftOk := true
      count := st.count +
        (if 2 ≤ st.runLen ∧ st.leftOk = true ∧ pyIsWordChar c = false then 1 else 0) }

def countWordMatches (cls : Char → Bool) (text : List Char) : Nat :=
  let st := text.foldl (wordStep cls) ⟨false, 0, true, 0⟩
  st.count + (if 2 ≤ st.runLen ∧ st.leftOk = true then 1 else 0)

/-- If no character of the text is in the class, no word match exists. -/
theorem countWordMatches_eq_zero (cls : Char → Bool) (text : List Char)
    (h : ∀ c ∈ text, cls c = false) : countWordMatches cls text = 0 := by
  unfold countWordMatches
  suffices hs : ∀ st : WordScan, st.runLen = 0 → st.count = 0 →
      (text.foldl (wordStep cls) st).runLen = 0 ∧
      (text.foldl (wordStep cls) st).count = 0 by
    obtain ⟨h1, h2⟩ := hs ⟨false, 0, true, 0⟩ rfl rfl
    simp [h1, h2]
  induction text with
  | nil => intro st h1 h2; exact ⟨h1, h2⟩
  | cons c rest ih =>
    intro st h1 h2
    have hc : cls c = false := h c (List.mem_cons_self c rest)
    have hrest : ∀ x ∈ rest, cls x = false := fun x hx => h x (List.mem_cons_of_mem c hx)
    have hstep : wordStep cls st c =
        { prevW := pyIsWordChar c, runLen := 0, leftOk := true, count := 0 } := by
      unfold wordStep
      rw [hc]
      simp [h1, h2]
    simpa [List.foldl_cons, hstep] using
      (by
        have := ih hrest
        exact this { prevW := pyIsWordChar c, runLen := 0, leftOk := true, count := 0 } rfl rfl)

/-! ## Substring containment (Python `in` on strings) -/

def hasSub (needle hay : List Char) : Bool :=
  hay.tails.any (fun t => needle.isPrefixOf t)

theorem hasSub_iff (n h : List Char) : hasSub n h = true ↔ n <:+: h := by
  unfold hasSub
  rw [List.any_eq_true]
  constructor
  · rintro ⟨t, ht, hp⟩
    exact List.infix_iff_prefix_suffix.mpr
      ⟨t, List.isPrefixOf_iff_prefix.mp hp, (List.mem_tails _ _).mp ht⟩
  · intro hi
    obtain ⟨t, hp, hsfx⟩ := List.infix_iff_prefix_suffix.mp hi
    exact ⟨t, (List.mem_tails _ _).mpr hsfx, List.isPrefixOf_iff_prefix.mpr hp⟩

theorem hasSub_append (n h h' : List Char) (hh : hasSub n h = true) :
    hasSub n (h ++ h') = true := by
  rw [hasSub_iff] at hh ⊢
  obtain ⟨u, v, huv⟩ := hh
  exact ⟨u, v ++ h', by rw [← huv]; simp⟩

/-! ## Confidence scorer — `ConfidenceScorer.calculate`
(`ocr_service/modules/confidence.py` lines 35-63) -/

namespace ConfidenceScorer

/-- The default marker set of `ConfidenceScorer.__init__`. -/
def default_markers : List (List Char) :=
  ["date", "fecha", "total", "invoice", "factura", "name", "nombre",
   "id", "dni", "tax", "iva"].map String.data

/-- `sum(0.05 for m in self.markers if m in text.lower())` counts the markers
that occur, after lowercasing the text, as substrings. -/
def markerCount (markers : List (List Char)) (text : List Char) : Nat :=
  (markers.filter (fun m => hasSub m (text.map pyLower))).length

/-- `min(0.2, 0.05 * markerCount)`. -/
def marker_score (markers : List (List Char)) (text : List Char) : ℚ :=
  min (1/5) ((markerCount markers text : ℚ) * (1/20))

/-- The arithmetic tail of `calculate`, as a function of the four counts it
derives from the text: `alnum` alphanumeric characters, `len` total length,
`wc` word-regex matches, `mc` markers found.  Mirrors lines 42-63:
density, marker cap 0.2, length factor, word factor (explicitly 0 when no
word matched), then `round(base_score * length_factor, 2)`. -/
def scoreOf (alnum len wc mc : Nat) : ℚ :=
  let density : ℚ := (alnum : ℚ) / (len : ℚ)
  let markerSc : ℚ := min (1/5) ((mc : ℚ) * (1/20))
  let lengthFactor : ℚ := min 1 ((len : ℚ) / 100)
  let wordFactor : ℚ := if 0 < wc then min 1 ((wc : ℚ) / 10) else 0
  round2 ((density * (2/5) + wordFactor * (2/5) + markerSc) * lengthFactor)

/-- `ConfidenceScorer.calculate`.  The guard `if not text or
len(text.strip()) == 0: return 0.0` is the test that every character is
whitespace (vacuously true for the empty string). -/
def calculate (markers : List (List Char)) (text : List Char) : ℚ :=
  if text.all pyIsSpace then 0
  else
    scoreOf ((text.filter pyIsAlnum).length) text.length
      (countWordMatches codeWordClass text) (markerCount markers text)

/-- The formula as the claim words it, parameterised by the word-regex
character class: `round((0.4*density + 0.4*word_factor + marker_score) *
length_factor, 2)` with `word_factor = min(1, matches/10)`, density 0 for
empty input, and empty input scoring exactly 0.0. -/
def claim_formula (markers : List (List Char)) (wordClass : Char → Bool)
    (text : List Char) : ℚ :=
  if text = [] then 0
  else
    let density : ℚ := ((text.filter pyIsAlnum).length : ℚ) / (text.length : ℚ)
    let wordFactor : ℚ := min 1 ((countWordMatches wordClass text : ℚ) / 10)
    let markerSc : ℚ := min (1/5) ((markerCount markers text : ℚ) * (1/20))
    let lengthFactor : ℚ := min 1 ((text.length : ℚ) / 100)
    round2 ((2/5 * density + 2/5 * wordFactor + markerSc) * lengthFactor)

theorem calculate_nil (markers : List (List Char)) : calculate markers [] = 0 := rfl

theorem scoreOf_nonneg (alnum len wc mc : Nat) : 0 ≤ scoreOf alnum len wc mc := by
  unfold scoreOf
  apply round2_nonneg
  have hd : (0 : ℚ) ≤ (alnum : ℚ) / (len : ℚ) := by positivity
  have hm : (0 : ℚ) ≤ min (1/5) ((mc : ℚ) * (1/20)) := le_min (by norm_num) (by positivity)
  have hl : (0 : ℚ) ≤ min 1 ((len : ℚ) / 100) := le_min (by norm_num) (by positivity)
  have hw : (0 : ℚ) ≤ (if 0 < wc then min 1 ((wc : ℚ) / 10) else 0) := by
    split
    · exact le_min (by norm_num) (by positivity)
    · exact le_refl 0
  have hbase : (0 : ℚ) ≤ (alnum : ℚ) / (len : ℚ) * (2/5) +
      (if 0 < wc then min 1 ((wc : ℚ) / 10) else 0) * (2/5) +
      min (1/5) ((mc : ℚ) * (1/20)) := by
    have h1 : (0 : ℚ) ≤ (alnum : ℚ) / (len : ℚ) * (2/5) := by positivity
    have h2 : (0 : ℚ) ≤ (if 0 < wc then min 1 ((wc : ℚ) / 10) else 0) * (2/5) := by
      apply mul_nonneg hw; norm_num
    linarith
  exact mul_nonneg hbase hl

theorem scoreOf_le_one (alnum len wc mc : Nat) (hal : alnum ≤ len) :
    scoreOf alnum len wc mc ≤ 1 := by
  unfold scoreOf
  apply round2_le_one
  have hd1 : (alnum : ℚ) / (len : ℚ) ≤ 1 := by
    rcases Nat.eq_zero_or_pos len with h0 | hpos
    · subst h0
      have : alnum = 0 := Nat.le_zero.mp hal
      subst this
      norm_num
    · rw [div_le_one (by exact_mod_cast hpos)]
      exact_mod_cast hal
  have hw1 : (if 0 < wc then min 1 ((wc : ℚ) / 10) else 0) ≤ 1 := by
    split
    · exact min_le_left _ _
    · norm_num
  have hw0 : (0 : ℚ) ≤ (if 0 < wc then min 1 ((wc : ℚ) / 10) else 0) := by
    split
    · exact le_min (by norm_num) (by positivity)
    · exact le_refl 0
  have hm1 : min (1/5) ((mc : ℚ) * (1/20)) ≤ 1/5 := min_le_left _ _
  have hbase1 : (alnum : ℚ) / (len : ℚ) * (2/5) +
      (if 0 < wc then min 1 ((wc : ℚ) / 10) else 0) * (2/5) +
      min (1/5) ((mc : ℚ) * (1/20)) ≤ 1 := by nlinarith
  have hbase0 : (0 : ℚ) ≤ (alnum : ℚ) / (len : ℚ) * (2/5) +
      (if 0 < wc then min 1 ((wc : ℚ) / 10) else 0) * (2/5) +
      min (1/5) ((mc : ℚ) * (1/20)) := by
    have h1 : (0 : ℚ) ≤ (alnum : ℚ) / (len : ℚ) * (2/5) := by positivity
    have h2 : (0 : ℚ) ≤ (if 0 < wc then min 1 ((wc : ℚ) / 10) else 0) * (2/5) := by
      apply mul_nonneg hw0; norm_num
    have h3 : (0 : ℚ) ≤ min (1/5) ((mc : ℚ) * (1/20)) := le_min (by norm_num) (by positivity)
    linarith
  have hl1 : min 1 ((len : ℚ) / 100) ≤ 1 := min_le_left _ _
  have hl0 : (0 : ℚ) ≤ min 1 ((len : ℚ) / 100) := le_min (by norm_num) (by positivity)
  nlinarith

theorem calculate_nonneg (markers : List (List Char)) (text : List Char) :
    0 ≤ calculate markers text := by
  unfold calculate
  split
  · exact le_refl 0
  · exact scoreOf_nonneg _ _ _ _

theorem calculate_le_one (markers : List (List Char)) (text : List Char) :
    calculate markers text ≤ 1 := by
  unfold calculate
  split
  · norm_num
  · exact scoreOf_le_one _ _ _ _ (List.length_filter_le _ _)

/-- Nonempty text scoring above zero exists only with nonempty text: the
all-whitespace guard sends whitespace-only (and empty) text to `0`. -/
theorem calculate_pos_of_ne (markers : List (List Char)) (text : List Char)
    (h : 0 < calculate markers text) : text ≠ [] := by
  intro hnil
  subst hnil
  rw [calculate_nil] at h
  exact lt_irrefl 0 h

end ConfidenceScorer

/-! ### Whitespace lemmas used to align the all-whitespace guard with the
claim's formula. -/

theorem space_not_alnum (c : Char) (h : pyIsSpace c = true) : pyIsAlnum c = false := by
  unfold pyIsSpace at h
  unfold pyIsAlnum
  rw [decide_eq_true_iff] at h
  rw [decide_eq_false_iff_not]
  simp only [List.mem_cons, List.not_mem_nil, or_false]
  omega

theorem space_not_codeWordClass (c : Char) (h : pyIsSpace c = true) :
    codeWordClass c = false := by
  unfold pyIsSpace at h
  unfold codeWordClass
  rw [decide_eq_true_iff] at h
  rw [decide_eq_false_iff_not]
  simp only [List.mem_cons, List.not_mem_nil, or_false]
  omega

theorem pyLower_of_space (c : Char) (h : pyIsSpace c = true) : pyLower c = c := by
  unfold pyIsSpace at h
  rw [decide_eq_true_iff] at h
  unfold pyLower
  rw [if_neg (by omega), if_neg (by omega)]

theorem not_hasSub_of_space (c0 : Char) (m hay : List Char)
    (hc0 : pyIsSpace c0 = false) (hhay : ∀ c ∈ hay, pyIsSpace c = true) :
    hasSub (c0 :: m) hay = false := by
  by_contra hne
  have htrue : hasSub (c0 :: m) hay = true := by
    cases hv : hasSub (c0 :: m) hay
    · exact absurd hv hne
    · rfl
  have hinf := (hasSub_iff _ _).mp htrue
  have hc0mem : c0 ∈ hay := hinf.subset (List.mem_cons_self c0 m)
  rw [hhay c0 hc0mem] at hc0
  simp at hc0

theorem markerCount_of_space (text : List Char)
    (h : ∀ c ∈ text, pyIsSpace c = true) :
    ConfidenceScorer.markerCount ConfidenceScorer.default_markers text = 0 := by
  unfold ConfidenceScorer.markerCount
  rw [List.length_eq_zero, List.filter_eq_nil_iff]
  have hmap : ∀ c ∈ text.map pyLower, pyIsSpace c = true := by
    intro c hc
    obtain ⟨a, ha, rfl⟩ := List.mem_map.mp hc
    rw [pyLower_of_space a (h a ha)]
    exact h a ha
  intro m hm
  fin_cases hm <;>
    simp only [Bool.not_eq_true] <;>
    exact not_hasSub_of_space _ _ _ (by decide) hmap

/-- C4 (amended): `ConfidenceScorer.calculate` computes exactly the claim's
formula, with the word-regex character class of the source
(`[a-zA-Z]` plus the fourteen accented Spanish letters) in place of the
claim's `[A-Za-z\xC0-\xFF]`. -/
theorem confidence_formula_exact (text : List Char) :
    ConfidenceScorer.calculate ConfidenceScorer.default_markers text =
    ConfidenceScorer.claim_formula ConfidenceScorer.default_markers codeWordClass text := by
  by_cases hsp : text.all pyIsSpace = true
  · rw [ConfidenceScorer.calculate, if_pos hsp]
    unfold ConfidenceScorer.claim_formula
    by_cases hnil : text = []
    · rw [if_pos hnil]
    · rw [if_neg hnil]
      have hall : ∀ c ∈ text, pyIsSpace c = true := by
        intro c hc
        exact List.all_eq_true.mp hsp c hc
      have h1 : (text.filter pyIsAlnum).length = 0 := by
        rw [List.length_eq_zero, List.filter_eq_nil_iff]
        intro c hc
        simp [space_not_alnum c (hall c hc)]
      have h2 : countWordMatches codeWordClass text = 0 :=
        countWordMatches_eq_zero _ _ (fun c hc => space_not_codeWordClass c (hall c hc))
      have h3 : ConfidenceScorer.markerCount ConfidenceScorer.default_markers text = 0 :=
        markerCount_of_space text hall
      rw [h1, h2, h3]
      have hz : ((2:ℚ)/5 * (((0:ℕ) : ℚ) / (text.length : ℚ)) +
          2/5 * min 1 (((0:ℕ) : ℚ) / 10) + min (1/5) (((0:ℕ) : ℚ) * (1/20))) *
          min 1 ((text.length : ℚ) / 100) = 0 := by
        norm_num
      simp only [hz, round2_zero]
  · have hnil : text ≠ [] := by
      intro hn
      subst hn
      exact hsp rfl
    rw [ConfidenceScorer.calculate, if_neg hsp]
    unfold ConfidenceScorer.claim_formula ConfidenceScorer.scoreOf
    rw [if_neg hnil]
    have hwf : (if 0 < countWordMatches codeWordClass text then
        min (1:ℚ) ((countWordMatches codeWordClass text : ℚ) / 10) else 0) =
        min (1:ℚ) ((countWordMatches codeWordClass text : ℚ) / 10) := by
      split
      · rfl
      · rename_i hz
        have h0 : countWordMatches codeWordClass text = 0 := by omega
        rw [h0]
        norm_num
    rw [hwf]
    exact congrArg round2 (by ring)

/-! ### C4 counterexample: the source regex class and the claim's class
disagree.  On `"èè èè èè"` the source class (no e-grave 232) finds no word,
the claim's Latin-1 class finds three. -/

def cex4 : List Char := "èè èè èè".data

theorem cex4_lhs :
    ConfidenceScorer.calculate ConfidenceScorer.default_markers cex4 = 2/100 := by
  have h0 : cex4.all pyIsSpace = false := by decide
  have h1 : (cex4.filter pyIsAlnum).length = 6 := by decide
  have h2 : cex4.length = 8 := by decide
  have h3 : countWordMatches codeWordClass cex4 = 0 := by decide
  have h5 : ConfidenceScorer.markerCount ConfidenceScorer.default_markers cex4 = 0 := by
    decide
  rw [ConfidenceScorer.calculate, if_neg (by simp [h0]), h1, h2, h3, h5]
  have hv : ConfidenceScorer.scoreOf 6 8 0 0 = round2 (3/125) := by
    unfold ConfidenceScorer.scoreOf
    norm_num [min_def]
  rw [hv, round2_eq_down (3/125) 2 (by norm_num) (by norm_num)]
  norm_num

theorem cex4_rhs :
    ConfidenceScorer.claim_formula ConfidenceScorer.default_markers claimWordClass cex4 =
      3/100 := by
  have h0 : cex4 ≠ [] := by decide
  have h1 : (cex4.filter pyIsAlnum).length = 6 := by decide
  have h2 : cex4.length = 8 := by decide
  have h3 : countWordMatches claimWordClass cex4 = 3 := by decide
  have h5 : ConfidenceScorer.markerCount ConfidenceScorer.default_markers cex4 = 0 := by
    decide
  rw [ConfidenceScorer.claim_formula, if_neg h0, h1, h2, h3, h5]
  dsimp only
  have hv : (((2:ℚ)/5 * (((6:ℕ) : ℚ) / ((8:ℕ) : ℚ)) +
      2/5 * min 1 (((3:ℕ) : ℚ) / 10) + min (1/5) (((0:ℕ) : ℚ) * (1/20))) *
      min 1 (((8:ℕ) : ℚ) / 100)) = 21/625 := by
    norm_num [min_def]
  rw [hv, round2_eq_down (21/625) 3 (by norm_num) (by norm_num)]
  norm_num

/-- C4 counterexample: at the concrete input `"èè èè èè"` the source's
`calculate` yields 0.02 while the claim's formula (word regex with the
Latin-1 class) yields 0.03, so the claim's formula is not the one computed. -/
theorem confidence_regex_counterexample :
    ConfidenceScorer.calculate ConfidenceScorer.default_markers cex4 ≠
    ConfidenceScorer.claim_formula ConfidenceScorer.default_markers claimWordClass cex4 := by
  rw [cex4_lhs, cex4_rhs]
  norm_num

/-! ### C5: boundedness holds; appending a marker is monotone only in the
marker component. -/

theorem length_filter_mono {α : Type} (l : List α) (p q : α → Bool)
    (h : ∀ a ∈ l, p a = true → q a = true) :
    (l.filter p).length ≤ (l.filter q).length := by
  induction l with
  | nil => exact le_refl 0
  | cons a t ih =>
    have ht : ∀ x ∈ t, p x = true → q x = true :=
      fun x hx hpx => h x (List.mem_cons_of_mem a hx) hpx
    have hih := ih ht
    rcases hq : q a with _ | _
    · have hp : p a = false := by
        rcases hp : p a with _ | _
        · rfl
        · rw [h a (List.mem_cons_self a t) hp] at hq
          exact absurd hq (by simp)
      simpa [List.filter_cons, hp, hq] using hih
    · rcases hp : p a with _ | _
      · simp only [List.filter_cons, hp, hq, if_neg, if_pos, Bool.false_eq_true,
          ite_false, ite_true, List.length_cons]
        exact Nat.le_succ_of_le hih
      · simpa [List.filter_cons, hp, hq] using hih

theorem markerCount_le_append (markers : List (List Char)) (t u : List Char) :
    ConfidenceScorer.markerCount markers t ≤
    ConfidenceScorer.markerCount markers (t ++ u) := by
  unfold ConfidenceScorer.markerCount
  apply length_filter_mono
  intro m _ hm
  rw [List.map_append]
  exact hasSub_append _ _ _ hm

theorem marker_score_le_append (markers : List (List Char)) (t u : List Char) :
    ConfidenceScorer.marker_score markers t ≤
    ConfidenceScorer.marker_score markers (t ++ u) := by
  unfold ConfidenceScorer.marker_score
  apply min_le_min (le_refl _)
  have h := markerCount_le_append markers t u
  have hc : ((ConfidenceScorer.markerCount markers t : ℚ)) ≤
      ((ConfidenceScorer.markerCount markers (t ++ u) : ℚ)) := by exact_mod_cast h
  exact mul_le_mul_of_nonneg_right hc (by norm_num)

/-- C5 (amended): every score lies in `[0, 1]`; and appending `" " ++ m` for a
marker `m` never decreases the marker component `min(0.2, 0.05 * markers
found)`.  (The full score itself can decrease — see the counterexample —
because the appended characters dilute the alphanumeric density.) -/
theorem confidence_bounded_and_marker_component_monotone :
    (∀ text : List Char,
      0 ≤ ConfidenceScorer.calculate ConfidenceScorer.default_markers text ∧
      ConfidenceScorer.calculate ConfidenceScorer.default_markers text ≤ 1) ∧
    (∀ text m : List Char, m ∈ ConfidenceScorer.default_markers →
      ConfidenceScorer.marker_score ConfidenceScorer.default_markers text ≤
      ConfidenceScorer.marker_score ConfidenceScorer.default_markers (text ++ ' ' :: m)) := by
  constructor
  · intro text
    exact ⟨ConfidenceScorer.calculate_nonneg _ _, ConfidenceScorer.calculate_le_one _ _⟩
  · intro text m _
    exact marker_score_le_append _ text (' ' :: m)

theorem confidence_bounded_and_marker_component_monotone_witness :
    ("date".data ∈ ConfidenceScorer.default_markers) ∧
    (0 ≤ ConfidenceScorer.calculate ConfidenceScorer.default_markers "hola".data ∧
      ConfidenceScorer.calculate ConfidenceScorer.default_markers "hola".data ≤ 1) ∧
    ConfidenceScorer.marker_score ConfidenceScorer.default_markers "hola".data ≤
      ConfidenceScorer.marker_score ConfidenceScorer.default_markers
        ("hola".data ++ ' ' :: "date".data) :=
  ⟨by decide,
   confidence_bounded_and_marker_component_monotone.1 "hola".data,
   confidence_bounded_and_marker_component_monotone.2 "hola".data "date".data (by decide)⟩

/-! ### C5 counterexample: appending the marker `" date"` to a long
high-density text lowers the score (0.97 to 0.96) because the five appended
characters dilute the alphanumeric density while the word factor, marker
score and length factor are already at their caps. -/

def cex5 : List Char :=
  "date fecha total invoice factura name nombre tax iva dni".data ++
    List.replicate 50 'a'

def cex5m : List Char := cex5 ++ ' ' :: "date".data

theorem cex5_lhs :
    ConfidenceScorer.calculate ConfidenceScorer.default_markers cex5 = 97/100 := by
  have h0 : cex5.all pyIsSpace = false := by decide
  have h1 : (cex5.filter pyIsAlnum).length = 97 := by decide
  have h2 : cex5.length = 106 := by decide
  have h3 : countWordMatches codeWordClass cex5 = 10 := by decide
  have h5 : ConfidenceScorer.markerCount ConfidenceScorer.default_markers cex5 = 10 := by
    decide
  rw [ConfidenceScorer.calculate, if_neg (by simp [h0]), h1, h2, h3, h5]
  have hv : ConfidenceScorer.scoreOf 97 106 10 10 = round2 (256/265) := by
    unfold ConfidenceScorer.scoreOf
    norm_num [min_def]
  rw [hv, round2_eq_up (256/265) 96 (by norm_num) (by norm_num) (by norm_num)]
  norm_num

theorem cex5_rhs :
    ConfidenceScorer.calculate ConfidenceScorer.default_markers cex5m = 96/100 := by
  have h0 : cex5m.all pyIsSpace = false := by decide
  have h1 : (cex5m.filter pyIsAlnum).length = 101 := by decide
  have h2 : cex5m.length = 111 := by decide
  have h3 : countWordMatches codeWordClass cex5m = 11 := by decide
  have h5 : ConfidenceScorer.markerCount ConfidenceScorer.default_markers cex5m = 10 := by
    decide
  rw [ConfidenceScorer.calculate, if_neg (by simp [h0]), h1, h2, h3, h5]
  have hv : ConfidenceScorer.scoreOf 101 111 11 10 = round2 (107/111) := by
    unfold ConfidenceScorer.scoreOf
    norm_num [min_def]
  rw [hv, round2_eq_down (107/111) 96 (by norm_num) (by norm_num)]
  norm_num

/-- C5 counterexample: appending `" date"` (a marker of the scorer's set,
preceded by a space) to the concrete 106-character text `cex5` strictly
lowers the score, refuting marker monotonicity of the full score. -/
theorem confidence_marker_monotonicity_counterexample :
    ConfidenceScorer.calculate ConfidenceScorer.default_markers
        (cex5 ++ ' ' :: "date".data) <
    ConfidenceScorer.calculate ConfidenceScorer.default_markers cex5 := by
  have h := cex5_rhs
  unfold cex5m at h
  rw [h, cex5_lhs]
  norm_num

/-! ## Layout classifier — `DocumentLayoutAnalyzer.classify_layout`
(`ocr_service/modules/layout.py` lines 70-89) -/

namespace DocumentLayoutAnalyzer

/-- One element of the region list as `classify_layout` reads it: only the
`area_ratio` entry matters; `none` models a record lacking that key, so that
`r["area_ratio"]` raises `KeyError`. -/
structure Region where
  areaFrac : Option ℚ
deriving DecidableEq

/-- The four archetypes the spec enumerates. -/
def archetypes : List String := ["empty", "dense_text", "large_blocks", "standard_form"]

/-- `classify_layout`: empty input classifies as `"empty"`; the surrounding
`try/except` turns any exception (here: a missing `area_ratio` key hit by the
`sum`) into the string `"error"`; otherwise the region count and the mean and
maximal area ratios pick the archetype. -/
def classify_layout (regions : List Region) : String :=
  if regions.isEmpty then "empty"
  else if regions.any (fun r => r.areaFrac.isNone) then "error"
  else
    let n := regions.length
    let total := (regions.map (fun r => r.areaFrac.getD 0)).sum
    if 20 < n ∧ total / (n : ℚ) < 1/20 then "dense_text"
    else if n < 10 ∧ regions.any (fun r => decide ((2:ℚ)/5 < r.areaFrac.getD 0)) then
      "large_blocks"
    else "standard_form"

end DocumentLayoutAnalyzer

/-- C10: `classify_layout` is total with five possible outputs; when every
region carries an `area_ratio` the output is one of the four archetypes; a
region lacking the key yields the fifth value `"error"`, which is outside the
archetype enumeration. -/
theorem layout_classification_totality :
    (∀ regions : List DocumentLayoutAnalyzer.Region,
      DocumentLayoutAnalyzer.classify_layout regions ∈
        ("error" :: DocumentLayoutAnalyzer.archetypes)) ∧
    (∀ regions : List DocumentLayoutAnalyzer.Region,
      regions.all (fun r => r.areaFrac.isSome) = true →
      DocumentLayoutAnalyzer.classify_layout regions ∈ DocumentLayoutAnalyzer.archetypes) ∧
    DocumentLayoutAnalyzer.classify_layout [⟨none⟩] = "error" ∧
    "error" ∉ DocumentLayoutAnalyzer.archetypes := by
  refine ⟨?_, ?_, by decide, by decide⟩
  · intro regions
    unfold DocumentLayoutAnalyzer.classify_layout
    dsimp only
    split_ifs <;> simp [DocumentLayoutAnalyzer.archetypes]
  · intro regions h
    have hany : regions.any (fun r => r.areaFrac.isNone) = false := by
      rw [List.any_eq_false]
      intro r hr
      have hs := List.all_eq_true.mp h r hr
      cases hv : r.areaFrac with
      | none => rw [hv] at hs; simp at hs
      | some q => simp [hv]
    unfold DocumentLayoutAnalyzer.classify_layout
    rw [hany]
    dsimp only
    split_ifs <;> simp_all [DocumentLayoutAnalyzer.archetypes]

theorem layout_classification_totality_witness :
    (([⟨some (1/2)⟩] : List DocumentLayoutAnalyzer.Region).all
        (fun r => r.areaFrac.isSome) = true) ∧
    DocumentLayoutAnalyzer.classify_layout [⟨some (1/2)⟩] ∈
      DocumentLayoutAnalyzer.archetypes :=
  ⟨by decide, layout_classification_totality.2.1 [⟨some (1/2)⟩] (by decide)⟩

/-! ## Vision provider set — `AdvancedPixelReconstructor.reconstruct_with_ai`
(`ocr_service/modules/advanced_recon.py` lines 80-170)

The registered providers form an insertion-ordered dictionary; each provider's
`reconstruct` either returns a `{text, model}` payload or raises.  A
provider's behaviour in one run is modelled as `Option ReconResult`
(`none` = the call raised). -/

namespace AdvancedPixelReconstructor

structure ReconResult where
  text : String
  modelId : String
deriving DecidableEq, Inhabited

structure Provider where
  name : String
  behavior : Option ReconResult
deriving DecidableEq

inductive RWAOutcome
| ok (r : ReconResult)
| err (msg : String)
deriving DecidableEq

/-- `_get_primary_provider`: the requested name when registered, else the
first registered name, else nothing. -/
def get_primary_provider (providers : List Provider) (requested : String) :
    Option String :=
  if providers.any (fun p => p.name == requested) then some requested
  else providers.head?.map (fun p => p.name)

/-- `_try_fallback`: iterate the registration order, skip the excluded
primary, return the first success; if the loop ends, the constant error. -/
def try_fallback : List Provider → String → RWAOutcome
  | [], _ => .err "All AI providers failed"
  | p :: rest, exclude =>
    if p.name == exclude then try_fallback rest exclude
    else
      match p.behavior with
      | some r => .ok r
      | none => try_fallback rest exclude

/-- `reconstruct_with_ai`: resolve the primary, call it, and on failure (with
fallback enabled) run `_try_fallback` excluding the primary.  The
`self.providers[primary]` dictionary access is a `find?` on the name; its
`none` branch is unreachable because the primary always names a registered
provider.  `_format_error` for the fallback-disabled path is abstracted to a
constant message. -/
def reconstruct_with_ai (providers : List Provider) (preferred : String)
    (fallback : Bool) : RWAOutcome :=
  match get_primary_provider providers preferred with
  | none => .err "No AI providers configured"
  | some primary =>
    match providers.find? (fun p => p.name == primary) with
    | none => .err "No AI providers configured"
    | some p =>
      match p.behavior with
      | some r => .ok r
      | none =>
        if fallback then try_fallback providers primary
        else .err "Internal error"

/-- The claim's primary-selection rule, written from its words: the preferred
provider if registered, else the first registered provider. -/
def spec_primary (providers : List Provider) (preferred : String) : Option Provider :=
  if providers.any (fun p => p.name == preferred) then
    providers.find? (fun p => p.name == preferred)
  else providers.head?

/-- The claim's try order: the primary first, then the remaining providers in
registration order. -/
def spec_try_order (providers : List Provider) (preferred : String) : List Provider :=
  match spec_primary providers preferred with
  | none => []
  | some p => p :: providers.filter (fun q => !(q.name == p.name))

/-- The claim's outcome: the first success along the try order, and the exact
error `"All AI providers failed"` when every provider fails. -/
def spec_first_success (order : List Provider) : RWAOutcome :=
  match order.find? (fun p => p.behavior.isSome) with
  | some p => .ok (p.behavior.getD default)
  | none => .err "All AI providers failed"

theorem try_fallback_eq_first_success (l : List Provider) (exclude : String) :
    try_fallback l exclude =
    spec_first_success (l.filter (fun q => !(q.name == exclude))) := by
  induction l with
  | nil => rfl
  | cons p rest ih =>
    by_cases hx : p.name == exclude
    · rw [try_fallback, if_pos hx]
      rw [show (p :: rest).filter (fun q => !(q.name == exclude)) =
        rest.filter (fun q => !(q.name == exclude)) by simp [List.filter_cons, hx]]
      exact ih
    · have hxb : (p.name == exclude) = false := by
        cases hv : p.name == exclude
        · rfl
        · exact absurd hv hx
      rw [try_fallback, if_neg hx]
      rw [show (p :: rest).filter (fun q => !(q.name == exclude)) =
        p :: rest.filter (fun q => !(q.name == exclude)) by simp [List.filter_cons, hxb]]
      cases hb : p.behavior with
      | some r =>
        unfold spec_first_success
        rw [List.find?_cons_of_pos _ (by simp [hb])]
        simp [hb]
      | none =>
        unfold spec_first_success
        rw [List.find?_cons_of_neg _ (by simp [hb])]
        exact ih

end AdvancedPixelReconstructor

/-- C6: with fallback enabled, the primary is the preferred provider when
registered and otherwise the first registered one; the outcome is the first
success along the order primary-then-remaining-in-registration-order; when
every provider fails the error is exactly `"All AI providers failed"`. -/
theorem provider_fallback_order :
    (∀ (providers : List AdvancedPixelReconstructor.Provider) (preferred : String),
      (providers.any (fun p => p.name == preferred)) = true →
      AdvancedPixelReconstructor.get_primary_provider providers preferred =
        some preferred) ∧
    (∀ (providers : List AdvancedPixelReconstructor.Provider) (preferred : String),
      (providers.any (fun p => p.name == preferred)) = false →
      AdvancedPixelReconstructor.get_primary_provider providers preferred =
        providers.head?.map (fun p => p.name)) ∧
    (∀ (providers : List AdvancedPixelReconstructor.Provider) (preferred : String),
      providers ≠ [] →
      AdvancedPixelReconstructor.reconstruct_with_ai providers preferred true =
        AdvancedPixelReconstructor.spec_first_success
          (AdvancedPixelReconstructor.spec_try_order providers preferred)) := by
  refine ⟨?_, ?_, ?_⟩
  · intro providers preferred hany
    unfold AdvancedPixelReconstructor.get_primary_provider
    rw [if_pos hany]
  · intro providers preferred hany
    unfold AdvancedPixelReconstructor.get_primary_provider
    rw [hany]
    simp
  · intro providers preferred hne
    by_cases hany : (providers.any (fun p => p.name == preferred)) = true
    · have hs : (providers.find? (fun p => p.name == preferred)).isSome := by
        rw [List.find?_isSome]
        obtain ⟨x, hx1, hx2⟩ := List.any_eq_true.mp hany
        exact ⟨x, hx1, hx2⟩
      obtain ⟨p, hp⟩ := Option.isSome_iff_exists.mp hs
      have hpname : p.name = preferred := by
        have h := List.find?_some hp
        simpa using h
      have hlhs : AdvancedPixelReconstructor.reconstruct_with_ai providers preferred true =
          (match p.behavior with
           | some r => AdvancedPixelReconstructor.RWAOutcome.ok r
           | none => AdvancedPixelReconstructor.try_fallback providers preferred) := by
        unfold AdvancedPixelReconstructor.reconstruct_with_ai
          AdvancedPixelReconstructor.get_primary_provider
        rw [if_pos hany]
        simp only [hp, if_true]
      have horder : AdvancedPixelReconstructor.spec_try_order providers preferred =
          p :: providers.filter (fun q => !(q.name == preferred)) := by
        unfold AdvancedPixelReconstructor.spec_try_order
          AdvancedPixelReconstructor.spec_primary
        rw [if_pos hany]
        simp only [hp, hpname]
      rw [hlhs, horder]
      cases hb : p.behavior with
      | some r =>
        unfold AdvancedPixelReconstructor.spec_first_success
        rw [List.find?_cons_of_pos _ (by simp [hb])]
        simp [hb]
      | none =>
        simp only
        rw [AdvancedPixelReconstructor.try_fallback_eq_first_success providers preferred]
        unfold AdvancedPixelReconstructor.spec_first_success
        rw [List.find?_cons_of_neg _ (by simp [hb])]
    · have hany' : (providers.any (fun p => p.name == preferred)) = false := by
        cases hv : providers.any (fun p => p.name == preferred)
        · rfl
        · exact absurd hv hany
      obtain ⟨q, rest, rfl⟩ := List.exists_cons_of_ne_nil hne
      have hq : ((q :: rest).find? (fun p => p.name == q.name)) = some q :=
        List.find?_cons_of_pos _ (by simp)
      have hlhs : AdvancedPixelReconstructor.reconstruct_with_ai (q :: rest) preferred true =
          (match q.behavior with
           | some r => AdvancedPixelReconstructor.RWAOutcome.ok r
           | none => AdvancedPixelReconstructor.try_fallback (q :: rest) q.name) := by
        unfold AdvancedPixelReconstructor.reconstruct_with_ai
          AdvancedPixelReconstructor.get_primary_provider
        rw [if_neg (by simp [hany'])]
        simp only [List.head?_cons, Option.map_some', hq, if_true]
      have horder : AdvancedPixelReconstructor.spec_try_order (q :: rest) preferred =
          q :: (q :: rest).filter (fun x => !(x.name == q.name)) := by
        unfold AdvancedPixelReconstructor.spec_try_order
          AdvancedPixelReconstructor.spec_primary
        rw [if_neg (by simp [hany'])]
        simp only [List.head?_cons]
      rw [hlhs, horder]
      cases hb : q.behavior with
      | some r =>
        unfold AdvancedPixelReconstructor.spec_first_success
        rw [List.find?_cons_of_pos _ (by simp [hb])]
        simp [hb]
      | none =>
        simp only
        rw [AdvancedPixelReconstructor.try_fallback_eq_first_success (q :: rest) q.name]
        unfold AdvancedPixelReconstructor.spec_first_success
        rw [List.find?_cons_of_neg _ (by simp [hb])]

/-- C6 witness: the claim's scenario. Providers registered in order
`[p1, p2, p3]` with `preferred = "p2"`: when p2 and then p1 fail while p3
succeeds, the result carries p3's model id; when all three fail, the error is
exactly `"All AI providers failed"`. -/
theorem provider_fallback_order_witness :
    (([⟨"p1", none⟩, ⟨"p2", none⟩,
       ⟨"p3", some ⟨"text3", "model3"⟩⟩] : List AdvancedPixelReconstructor.Provider) ≠ []) ∧
    AdvancedPixelReconstructor.reconstruct_with_ai
      [⟨"p1", none⟩, ⟨"p2", none⟩, ⟨"p3", some ⟨"text3", "model3"⟩⟩] "p2" true =
      .ok ⟨"text3", "model3"⟩ ∧
    AdvancedPixelReconstructor.reconstruct_with_ai
      [⟨"p1", none⟩, ⟨"p2", none⟩, ⟨"p3", none⟩] "p2" true =
      .err "All AI providers failed" := by
  refine ⟨by decide, ?_, ?_⟩
  · rw [provider_fallback_order.2.2 _ "p2" (by decide)]
    decide
  · rw [provider_fallback_order.2.2 _ "p2" (by decide)]
    decide

/-! ## Shared HTTP retry helper — `BaseVisionProvider._request_with_retry`
(`ocr_service/modules/ai_providers.py` lines 83-141)

The while loop `while attempt < self.max_retries` performs one HTTP request
per iteration.  Each request's outcome is supplied by an oracle trace
`o : Nat → AttemptOutcome` indexed by the attempt counter. -/

namespace BaseVisionProvider

inductive AttemptOutcome
| transportErr
| http429
| httpStatusErr (code : Nat)
| success (payload : Nat)
deriving DecidableEq

inductive RetryOutcome
| ok (payload : Nat)
| errTransportExhausted
| errHttpStatus (code : Nat)
| errBudgetExhausted
deriving DecidableEq

def RetryOutcome.isErr : RetryOutcome → Bool
  | .ok _ => false
  | _ => true

/-- The loop body.  `attempt` is the loop counter and `budget` the remaining
iterations (`budget = max_retries - attempt`, so `budget = 1` exactly when
`attempt == max_retries - 1`).  On `httpx.HTTPError` at the last attempt the
transport error surfaces; otherwise the counter advances after a backoff.
On HTTP 429 the counter advances (line 122) after a backoff.  On another
4xx/5xx status the status error surfaces immediately.  On success the parsed
payload returns.  Falling out of the loop raises
`"Exceeded maximum retry attempts"`.  The second component counts the
requests performed. -/
def request_loop (o : Nat → AttemptOutcome) (attempt : Nat) :
    Nat → RetryOutcome × Nat
  | 0 => (.errBudgetExhausted, attempt)
  | b + 1 =>
    match o attempt with
    | .transportErr =>
      if b = 0 then (.errTransportExhausted, attempt + 1)
      else request_loop o (attempt + 1) b
    | .http429 => request_loop o (attempt + 1) b
    | .httpStatusErr c => (.errHttpStatus c, attempt + 1)
    | .success v => (.ok v, attempt + 1)

def request_with_retry (maxRetries : Nat) (o : Nat → AttemptOutcome) :
    RetryOutcome × Nat :=
  request_loop o 0 maxRetries

/-- The number of non-429 outcomes among the first `k` requests of a trace. -/
def countNon429 (o : Nat → AttemptOutcome) (k : Nat) : Nat :=
  ((List.range k).filter (fun i => decide (o i ≠ AttemptOutcome.http429))).length

theorem request_loop_requests_le (o : Nat → AttemptOutcome) (b : Nat) :
    ∀ attempt : Nat, (request_loop o attempt b).2 ≤ attempt + b := by
  induction b with
  | zero => intro attempt; exact le_refl _
  | succ b ih =>
    intro attempt
    unfold request_loop
    cases o attempt with
    | transportErr =>
      dsimp only
      by_cases hb : b = 0
      · rw [if_pos hb]
        dsimp only
        omega
      · rw [if_neg hb]
        have h := ih (attempt + 1)
        omega
    | http429 =>
      dsimp only
      have h := ih (attempt + 1)
      omega
    | httpStatusErr c =>
      dsimp only
      omega
    | success v =>
      dsimp only
      omega

theorem request_loop_all429 (o : Nat → AttemptOutcome) (b : Nat) :
    ∀ attempt : Nat, (∀ i, attempt ≤ i → i < attempt + b → o i = .http429) →
    request_loop o attempt b = (.errBudgetExhausted, attempt + b) := by
  induction b with
  | zero => intro attempt _; rfl
  | succ b ih =>
    intro attempt h
    unfold request_loop
    rw [h attempt (le_refl _) (by omega)]
    have hrec := ih (attempt + 1) (fun i h1 h2 => h i (by omega) (by omega))
    rw [hrec]
    rw [show attempt + 1 + b = attempt + (b + 1) by omega]

end BaseVisionProvider

/-- C7 (amended): the helper performs at most `max_retries` request attempts
in total, and an attempt answered with HTTP 429 consumes one unit of that
budget like any other retried attempt (after its backoff): a trace whose
first `max_retries` responses are all 429 surfaces
`"Exceeded maximum retry attempts"` after exactly `max_retries` requests. -/
theorem retry_budget (maxRetries : Nat) (o : Nat → BaseVisionProvider.AttemptOutcome) :
    (BaseVisionProvider.request_with_retry maxRetries o).2 ≤ maxRetries ∧
    ((∀ i, i < maxRetries → o i = BaseVisionProvider.AttemptOutcome.http429) →
      BaseVisionProvider.request_with_retry maxRetries o =
        (BaseVisionProvider.RetryOutcome.errBudgetExhausted, maxRetries)) := by
  constructor
  · have h := BaseVisionProvider.request_loop_requests_le o maxRetries 0
    simpa using h
  · intro h
    have hrun := BaseVisionProvider.request_loop_all429 o maxRetries 0
      (fun i h1 h2 => h i (by omega))
    simpa using hrun

theorem retry_budget_witness :
    (∀ i, i < 3 →
      (fun _ => BaseVisionProvider.AttemptOutcome.http429) i =
        BaseVisionProvider.AttemptOutcome.http429) ∧
    (BaseVisionProvider.request_with_retry 3
      (fun _ => BaseVisionProvider.AttemptOutcome.http429)).2 ≤ 3 ∧
    BaseVisionProvider.request_with_retry 3
      (fun _ => BaseVisionProvider.AttemptOutcome.http429) =
      (BaseVisionProvider.RetryOutcome.errBudgetExhausted, 3) :=
  ⟨fun _ _ => rfl,
   (retry_budget 3 (fun _ => BaseVisionProvider.AttemptOutcome.http429)).1,
   (retry_budget 3 (fun _ => BaseVisionProvider.AttemptOutcome.http429)).2
     (fun _ _ => rfl)⟩

/-- C7 counterexample: the claim reads "a 429 response never consumes an
attempt", i.e. an error can surface only once `max_retries` non-429 attempts
have failed.  The trace answering every request with HTTP 429 refutes this:
with `max_retries = 3` the helper surfaces an error after three requests,
none of which was a non-429 attempt. -/
theorem retry_429_counterexample :
    ¬ (∀ o : Nat → BaseVisionProvider.AttemptOutcome,
        ((BaseVisionProvider.request_with_retry 3 o).1.isErr = true) →
        BaseVisionProvider.countNon429 o
          (BaseVisionProvider.request_with_retry 3 o).2 = 3) := by
  intro h
  have h3 := h (fun _ => BaseVisionProvider.AttemptOutcome.http429) (by decide)
  have hval : BaseVisionProvider.countNon429
      (fun _ => BaseVisionProvider.AttemptOutcome.http429)
      (BaseVisionProvider.request_with_retry 3
        (fun _ => BaseVisionProvider.AttemptOutcome.http429)).2 = 0 := by decide
  rw [hval] at h3
  exact absurd h3 (by decide)

/-! ## Event-trigger handler — `WorkerService.process_s3_record`
(`ocr_service/services/worker.py` lines 24-133)

The record carries a bucket name and a percent-encoded object key.  The
Textract calls and the storage writes are external; their outcomes are
oracle parameters, and the function's observable output is the list of
storage writes `(key, document)` it performs plus whether the record's
exception is re-raised. -/

namespace WorkerService

/-- One hexadecimal digit, or `none`. -/
def hexVal (c : Char) : Option Nat :=
  if 48 ≤ c.toNat ∧ c.toNat ≤ 57 then some (c.toNat - 48)
  else if 65 ≤ c.toNat ∧ c.toNat ≤ 70 then some (c.toNat - 55)
  else if 97 ≤ c.toNat ∧ c.toNat ≤ 102 then some (c.toNat - 87)
  else none

/-- `urllib.parse.unquote_plus`: plus becomes space, `%XX` hex pairs decode,
malformed escapes stay literal.  (Multi-byte UTF-8 sequences decode to their
individual bytes here; the output key formula applies the same function on
both sides, so this byte-level view is immaterial to the claim.) -/
def unquote_plus : List Char → List Char
  | [] => []
  | '+' :: rest => ' ' :: unquote_plus rest
  | '%' :: a :: b :: rest =>
    match hexVal a, hexVal b with
    | some x, some y => Char.ofNat (16 * x + y) :: unquote_plus rest
    | _, _ => '%' :: unquote_plus (a :: b :: rest)
  | c :: rest => c :: unquote_plus rest

/-- Python `str.rstrip("/")`: drop every trailing slash. -/
def rstrip_slashes (s : List Char) : List Char :=
  (s.reverse.dropWhile (fun c => c == '/')).reverse

/-- `os.path.basename`: everything after the last slash. -/
def basename (s : List Char) : List Char :=
  (s.reverse.takeWhile (fun c => !(c == '/'))).reverse

/-- Line 44: the output key the handler persists every document to. -/
def out_key_of (outputDir key : List Char) : List Char :=
  rstrip_slashes outputDir ++ '/' :: (basename key ++ ".json".data)

/-- The same formula, written from the claim's words
`trim_trailing_slash(p) + "/" + basename(url_unescape(k)) + ".json"`. -/
def claim_out_key (outputDir rawKey : List Char) : List Char :=
  rstrip_slashes outputDir ++ '/' :: (basename (unquote_plus rawKey) ++ ".json".data)

/-- Python `str.lower().endswith(".pdf")`. -/
def ends_with_pdf (key : List Char) : Bool :=
  (".pdf".data).isSuffixOf (key.map pyLower)

/-- The failure of one record's Textract interaction. -/
inductive S3Err
| clientError (awsRequestId msg : String)
| genericError (msg : String)
deriving DecidableEq

/-- The documents the handler can persist. -/
inductive OutDoc
| started (jobId : String) (requestId : String)
| syncResult (payload : Nat) (requestId : String)
| awsErrorDoc (msg awsRequestId : String)
| pipelineErrorDoc (msg requestId : String)
deriving DecidableEq

/-- `process_s3_record`.  Inputs: the configured output prefix, the record's
bucket and raw key, the request id, the oracle outcomes of
`start_detection` (`.ok none` models a falsy job id, which raises
`RuntimeError`) and `analyze_document`, and the success of `save_json`
(which only affects logging).  Output: the storage writes performed and
whether the exception was re-raised to the batch handler. -/
def process_s3_record (outputDir : List Char) (bucket : Option (List Char))
    (rawKey : List Char) (requestId : String)
    (pdfRes : Except S3Err (Option String)) (syncRes : Except S3Err Nat) :
    List (List Char × OutDoc) × Bool :=
  let key := unquote_plus rawKey
  match bucket with
  | none => ([], false)
  | some b =>
    if b = [] ∨ key = [] then ([], false)
    else
      let outKey := out_key_of outputDir key
      if ends_with_pdf key then
        match pdfRes with
        | .ok (some jobId) => ([(outKey, .started jobId requestId)], false)
        | .ok none =>
          ([(outKey, .pipelineErrorDoc "Textract job initiation failure" requestId)], true)
        | .error (.clientError rid msg) => ([(outKey, .awsErrorDoc msg rid)], true)
        | .error (.genericError msg) => ([(outKey, .pipelineErrorDoc msg requestId)], true)
      else
        match syncRes with
        | .ok payload => ([(outKey, .syncResult payload requestId)], false)
        | .error (.clientError rid msg) => ([(outKey, .awsErrorDoc msg rid)], true)
        | .error (.genericError msg) => ([(outKey, .pipelineErrorDoc msg requestId)], true)

end WorkerService

/-- C8: every document the handler writes — PDF branch, image branch, and
the error documents of both failure handlers — goes to the key
`trim_trailing_slash(prefix) + "/" + basename(url_unescape(raw key)) +
".json"`, and a processed record writes at least one document. -/
theorem event_trigger_output_key (outputDir : List Char) (b rawKey : List Char)
    (requestId : String) (pdfRes : Except WorkerService.S3Err (Option String))
    (syncRes : Except WorkerService.S3Err Nat)
    (hb : b ≠ []) (hk : WorkerService.unquote_plus rawKey ≠ []) :
    (∀ w ∈ (WorkerService.process_s3_record outputDir (some b) rawKey requestId
        pdfRes syncRes).1,
      w.1 = WorkerService.claim_out_key outputDir rawKey) ∧
    (WorkerService.process_s3_record outputDir (some b) rawKey requestId
        pdfRes syncRes).1 ≠ [] := by
  unfold WorkerService.process_s3_record
  dsimp only
  rw [if_neg (by push_neg; exact ⟨hb, hk⟩)]
  have hkey : WorkerService.out_key_of outputDir (WorkerService.unquote_plus rawKey) =
      WorkerService.claim_out_key outputDir rawKey := rfl
  split
  · rename_i h1
    split <;> simp [hkey]
  · split <;> simp [hkey]

theorem event_trigger_output_key_witness :
    (("bucket".data : List Char) ≠ []) ∧
    (WorkerService.unquote_plus "uploads/a%20b.pdf".data ≠ []) ∧
    (∀ w ∈ (WorkerService.process_s3_record "textract_outputs/".data
        (some "bucket".data) "uploads/a%20b.pdf".data "rid"
        (Except.ok (some "JOB-1")) (Except.ok 0)).1,
      w.1 = WorkerService.claim_out_key "textract_outputs/".data
        "uploads/a%20b.pdf".data) ∧
    (WorkerService.process_s3_record "textract_outputs/".data
        (some "bucket".data) "uploads/a%20b.pdf".data "rid"
        (Except.ok (some "JOB-1")) (Except.ok 0)).1 ≠ [] := by
  refine ⟨by decide, by decide, ?_, ?_⟩
  · exact (event_trigger_output_key "textract_outputs/".data "bucket".data
      "uploads/a%20b.pdf".data "rid" (Except.ok (some "JOB-1")) (Except.ok 0)
      (by decide) (by decide)).1
  · exact (event_trigger_output_key "textract_outputs/".data "bucket".data
      "uploads/a%20b.pdf".data "rid" (Except.ok (some "JOB-1")) (Except.ok 0)
      (by decide) (by decide)).2

/-! ## Processor — `OCRProcessor.process_bytes`
(`ocr_service/modules/processor.py` lines 55-155) together with
`StorageService.upload_file` (`ocr_service/services/storage.py` lines
132-151), which catches every put failure internally and returns `None`. -/

namespace OCRProcessor

/-- The engine response as the processor reads it: the `"error"` key, and
whether `result["reconstruction"]["meta"]` is present and truthy (which only
decides whether a second, independent metadata upload is scheduled).  The
remaining payload is opaque to the processor. -/
structure EngResponse where
  errorMsg : Option String
  payload : Nat
  hasReconMeta : Bool
deriving DecidableEq

/-- The enriched response `result.update({filename, processing_time, s3_key,
request_id})`; `processing_time` is wall-clock and omitted.  `s3Key = none`
models the JSON null. -/
structure ProcOut where
  core : EngResponse
  filename : String
  s3Key : Option String
  requestId : String
deriving DecidableEq

inductive ProcError
| httpExc (status : Nat)
deriving DecidableEq

/-- Python `str(...)` on an optional string: `str(None) = "None"`. -/
def pyStr : Option String → String
  | none => "None"
  | some s => s

/-- `process_bytes` after the strategy call: `strategyResult` is the outcome
of `_execute_ocr_strategy` (`.error` = the engine raised, caught by the
generic handler and re-raised as HTTP 500); a result carrying an `"error"`
key raises HTTP 400; otherwise `_persist_results` gathers the raw upload and
the optional metadata upload — neither can raise, since `upload_file` and
`upload_json` swallow storage failures and return `None` — and the response
is enriched with `s3_key = str(upload_results[0])`. -/
def process_bytes (strategyResult : Except Unit EngResponse)
    (uploadRaw uploadJsonRes : Option String) (filename requestId : String) :
    Except ProcError ProcOut :=
  match strategyResult with
  | .error _ => .error (.httpExc 500)
  | .ok r =>
    if r.errorMsg.isSome then .error (.httpExc 400)
    else
      .ok { core := r, filename := filename,
            s3Key := some (pyStr uploadRaw), requestId := requestId }

end OCRProcessor

/-- C9 (amended): when the engine strategy returns a non-error result and the
raw-blob upload fails (`upload_file` returns `None`), `process_bytes` still
returns the engine's response enriched with trace fields — it neither raises
nor aborts — but the `s3_key` field is the string `"None"` (the `str` of the
failed upload's `None`), not the JSON null. -/
theorem processor_returns_on_upload_failure (r : OCRProcessor.EngResponse)
    (uploadJsonRes : Option String) (filename requestId : String)
    (hok : r.errorMsg = none) :
    OCRProcessor.process_bytes (Except.ok r) none uploadJsonRes filename requestId =
      Except.ok { core := r, filename := filename,
                  s3Key := some "None", requestId := requestId } := by
  unfold OCRProcessor.process_bytes
  dsimp only
  rw [if_neg (by simp [hok])]
  rfl

theorem processor_returns_on_upload_failure_witness :
    (({ errorMsg := none, payload := 7, hasReconMeta := false } :
        OCRProcessor.EngResponse).errorMsg = none) ∧
    OCRProcessor.process_bytes
      (Except.ok { errorMsg := none, payload := 7, hasReconMeta := false })
      none none "doc.png" "RID-1" =
      Except.ok { core := { errorMsg := none, payload := 7, hasReconMeta := false },
                  filename := "doc.png", s3Key := some "None", requestId := "RID-1" } :=
  ⟨rfl, processor_returns_on_upload_failure
    { errorMsg := none, payload := 7, hasReconMeta := false } none "doc.png" "RID-1" rfl⟩

/-- C9 counterexample: at a concrete non-error engine result with a failed
raw upload, the response's `s3_key` field is the string `"None"` — produced
by `str(upload_results[0])` on line 155 — and not the JSON null the claim
requires. -/
theorem processor_s3_key_counterexample :
    (OCRProcessor.process_bytes
        (Except.ok { errorMsg := none, payload := 7, hasReconMeta := false })
        none none "doc.png" "RID-1").map (fun out => out.s3Key) =
      Except.ok (some "None") ∧
    (OCRProcessor.process_bytes
        (Except.ok { errorMsg := none, payload := 7, hasReconMeta := false })
        none none "doc.png" "RID-1").map (fun out => out.s3Key) ≠
      Except.ok (none : Option String) := by
  refine ⟨rfl, ?_⟩
  intro h
  have h2 : (Except.ok (some "None") : Except OCRProcessor.ProcError (Option String)) =
      Except.ok none := by
    rw [← h]
    rfl
  simp at h2

/-! ## Redis queue worker — `RedisWorker.process_job`
(`ocr_service/worker.py` lines 62-154)

The durable record `job:<id>` is a JSON document in the KV store; the worker
mutates it in place.  File reads, base64 decoding and the engine are external
and enter as oracle values.  The decisive line is 137:
`return await self.engine.process_image(...)` — but
`IterativeOCREngine.process_image` (`ocr_service/modules/ocr_engine.py` line
194) is a plain synchronous `def` returning a dict, and awaiting a dict
raises `TypeError` at runtime.  `await_dict` below models that await. -/

namespace RedisWorker

/-- The result documents `_execute_ocr` can return, plus the engine's own
response dict. -/
inductive WorkerResultDoc
| invalidImageEncoding
| fileNotFound
| missingInput
| engineResult (text : String) (confidence : ℚ)
deriving DecidableEq

/-- The payload fields `_execute_ocr` reads.  `imageBytes = some (.error ())`
models an `image_bytes` string whose base64 decoding raises;
`some (.ok bs)` the decoded bytes.  `imagePath` likewise models the local
file read. -/
structure WorkerJobData where
  imageBytes : Option (Except Unit (List Nat))
  imagePath : Option (Except Unit (List Nat))

inductive PyExc
| typeErrorAwaitDict
deriving DecidableEq

def pyExcMessage : PyExc → String
  | .typeErrorAwaitDict => "TypeError: object dict is not awaitable"

/-- `await e` where `e` evaluates to a plain dict: the dict is not awaitable,
so the await raises `TypeError` and the dict value is discarded. -/
def await_dict (_d : WorkerResultDoc) : Except PyExc WorkerResultDoc :=
  .error .typeErrorAwaitDict

/-- `_execute_ocr` (lines 100-139): prefer inline `image_bytes` over
`image_path`; a decode failure returns `invalid_image_encoding`, a read
failure `file_not_found`, empty or absent bytes `missing_input`; otherwise
line 137 awaits the synchronous `process_image`, whose dict — here the
oracle `engineResult` — the await raises `TypeError` on. -/
def execute_ocr (job : WorkerJobData) (engineText : String) (engineConf : ℚ) :
    Except PyExc WorkerResultDoc :=
  match job.imageBytes with
  | some (.error _) => .ok .invalidImageEncoding
  | some (.ok bs) =>
    if bs = [] then .ok .missingInput
    else await_dict (.engineResult engineText engineConf)
  | none =>
    match job.imagePath with
    | some (.error _) => .ok .fileNotFound
    | some (.ok bs) =>
      if bs = [] then .ok .missingInput
      else await_dict (.engineResult engineText engineConf)
    | none => .ok .missingInput

/-- The durable `job:<id>` record. -/
structure StoredJob where
  data : WorkerJobData
  status : String
  result : Option WorkerResultDoc
  errorMsg : Option String
  updatedAt : Option Nat
  completedAt : Option Nat
  failedAt : Option Nat

/-- `process_job`: a missing record is skipped; otherwise the record is
stamped `PROCESSING`/`updated_at`, `_execute_ocr` runs, and on return the
record becomes `COMPLETED` with the result and `completed_at` — while any
exception routes through `_handle_job_failure`, which re-reads the record
and stamps `FAILED` with the error message and `failed_at`. -/
def process_job (stored : Option StoredJob) (engineText : String)
    (engineConf : ℚ) (t1 t2 : Nat) : Option StoredJob :=
  match stored with
  | none => none
  | some j =>
    let processing := { j with status := "PROCESSING", updatedAt := some t1 }
    match execute_ocr j.data engineText engineConf with
    | .ok res =>
      some { processing with
              status := "COMPLETED"
              result := some res
              completedAt := some t2 }
    | .error e =>
      some { processing with
              status := "FAILED"
              errorMsg := some (pyExcMessage e)
              failedAt := some t2 }

end RedisWorker

/-- C3 (code bug): a job whose payload carries valid inline image bytes —
here base64 `"eHh4"`, the bytes `"xxx"` — and for which the engine would
return `{text: "out", confidence: 0.9}`, ends with durable status `FAILED`
(with the `TypeError` message and no result attached), not `COMPLETED`:
line 137 of `ocr_service/worker.py` awaits the synchronous
`IterativeOCREngine.process_image`, so the dict it returns is awaited and
raises `TypeError`, which `process_job` catches as a job failure. -/
theorem worker_valid_job_marked_failed :
    (RedisWorker.process_job
        (some { data := { imageBytes := some (Except.ok [120, 120, 120]),
                          imagePath := none },
                status := "QUEUED", result := none, errorMsg := none,
                updatedAt := none, completedAt := none, failedAt := none })
        "out" (9/10) 5 6).map (fun j => (j.status, j.result)) =
      some ("FAILED", none) := rfl

/-! ## Iterative OCR engine — `IterativeOCREngine.process_image`
(`ocr_service/modules/ocr_engine.py` lines 184-291)

The engine is dependency-injected; the image primitives and Tesseract are
out of scope ("assumed available as pure functions").  Each iteration's
interactions with them are an oracle `IterOracle`: whether preprocessing
(`enhancer.sharpen` / `apply_threshold` inside `_perform_ocr_iteration`)
raises, whether the whole-page `pytesseract` call raises (caught at lines
115-120, yielding the empty string), the stripped text it returns otherwise,
the per-region OCR outcomes, and whether the inter-iteration enhancement
step raises.  Images themselves never influence the recorded control flow
and are not tracked. -/

namespace IterativeOCREngine

/-- Modelled from the spec: the module `ocr_service/modules/ocr_config.py`
holding `EngineConfig` is not present under the sources; the spec fixes
`ocr_iterations` default 3, the 10 MB validation cap, and
`confidence_threshold` default 0.5 (the sibling variant
`ocr-service/modules/ocr_config.py` agrees). -/
structure EngineConfig where
  maxIterations : Nat := 3
  maxImageSizeMb : Nat := 10
  confidenceThreshold : ℚ := 1/2

def default_config : EngineConfig := {}

/-- The oracle for one iteration's external calls. -/
structure IterOracle where
  preprocessFails : Bool
  extractRaises : Bool
  extractText : List Char
  regionTexts : List (Option (List Char))
  enhanceFails : Bool

/-- `_ocr_regions`: per region, a zero-size ROI is skipped, a raising
Tesseract call is skipped (`none`), an empty stripped text is skipped, and
the surviving texts join with a blank line. -/
def ocr_regions (outs : List (Option (List Char))) : List Char :=
  List.intercalate "\n\n".data ((outs.filterMap id).filter (fun t => !t.isEmpty))

/-- The whole-page text of `_perform_ocr_iteration`: the stripped Tesseract
output, or the empty string when the call raises. -/
def full_text (o : IterOracle) : List Char :=
  if o.extractRaises then [] else o.extractText

/-- `_should_use_region_ocr` (lines 184-192). -/
def should_use_region_ocr (cfg : EngineConfig) (iteration : Nat)
    (confidence : ℚ) (regionCount : Nat) : Bool :=
  decide (iteration = 1 ∧ confidence < cfg.confidenceThreshold ∧ 1 < regionCount)

/-- One history record.  The source stores
`{iteration, text_length, confidence, method, preview_text}` for a completed
pass — `text_length` and `preview_text` being derived from the pass's text,
carried here in full — and `{iteration, error: "failed"}` for a pass whose
body raised. -/
inductive HistEntry
| entry (iteration : Nat) (text : List Char) (confidence : ℚ) (isRegionPass : Bool)
| failed (iteration : Nat)
deriving DecidableEq

/-- The `method` field of a completed record. -/
def method_of (isRegionPass : Bool) : String :=
  if isRegionPass then "region-based" else "full-page"

/-- The `text_length` field of a completed record. -/
def text_length_of (text : List Char) : Nat := text.length

/-- The `preview_text` field of a completed record. -/
def preview_of (text : List Char) : List Char :=
  if 50 < text.length then text.take 50 ++ "...".data else text

/-- `_run_single_iteration` (lines 239-273): preprocessing raising fails the
pass; otherwise the whole-page text is computed (a raising extraction was
already converted to `""`), the region trigger is consulted with the
pre-pass best confidence and may replace the text, the confidence scorer
runs, and the inter-iteration enhancement may still fail the pass.  `none`
is the `(None, 0.0, "failed", img)` outcome. -/
def run_single_iteration (cfg : EngineConfig) (o : IterOracle) (iteration : Nat)
    (bestConfidence : ℚ) (regionCount : Nat) : Option (List Char × ℚ × Bool) :=
  if o.preprocessFails then none
  else
    let isRegionPass := should_use_region_ocr cfg iteration bestConfidence regionCount
    let text := if isRegionPass then ocr_regions o.regionTexts else full_text o
    if o.enhanceFails then none
    else
      some (text, ConfidenceScorer.calculate ConfidenceScorer.default_markers text,
        isRegionPass)

/-- The iteration loop of `process_image` (lines 215-233): per pass, append
the history record, and update the running best when the pass produced a
nonempty text with a strictly higher confidence.  Returns (best text, best
confidence, history). -/
def engine_loop (cfg : EngineConfig) (oracles : Nat → IterOracle)
    (regionCount : Nat) : Nat → Nat → List Char → ℚ → List Char × ℚ × List HistEntry
  | _, 0, bt, bc => (bt, bc, [])
  | i, fuel + 1, bt, bc =>
    match run_single_iteration cfg (oracles i) i bc regionCount with
    | none =>
      let r := engine_loop cfg oracles regionCount (i + 1) fuel bt bc
      (r.1, r.2.1, HistEntry.failed (i + 1) :: r.2.2)
    | some (t, c, isR) =>
      let p := if t ≠ [] ∧ bc < c then (t, c) else (bt, bc)
      let r := engine_loop cfg oracles regionCount (i + 1) fuel p.1 p.2
      (r.1, r.2.1, HistEntry.entry (i + 1) t c isR :: r.2.2)

/-- `ImageToolkit.validate_image`. -/
def validate_image (inputLen maxMb : Nat) : Option String :=
  if inputLen = 0 then some "Empty image content"
  else if maxMb * 1048576 < inputLen then
    some ("Image size exceeds " ++ toString maxMb ++ "MB limit")
  else none

inductive EngineResponse
| error (msg : String)
| ok (text : List Char) (confidence : ℚ) (iterations : List HistEntry) (success : Bool)

def EngineResponse.isOk : EngineResponse → Bool
  | .error _ => false
  | .ok _ _ _ _ => true

def EngineResponse.textOf : EngineResponse → List Char
  | .error _ => []
  | .ok t _ _ _ => t

def EngineResponse.confOf : EngineResponse → ℚ
  | .error _ => 0
  | .ok _ c _ _ => c

def EngineResponse.histOf : EngineResponse → List HistEntry
  | .error _ => []
  | .ok _ _ h _ => h

/-- `process_image` (lines 194-237): validation, decode, the loop from the
initial best `("", 0.0)`, and the response assembly of
`_build_process_response`.  `decodeOk` is the decoding oracle; the optional
reconstruction preamble only swaps the working image and attaches metadata,
neither of which the claims touch. -/
def process_image (cfg : EngineConfig) (inputLen : Nat) (decodeOk : Bool)
    (regionCount : Nat) (oracles : Nat → IterOracle) : EngineResponse :=
  match validate_image inputLen cfg.maxImageSizeMb with
  | some e => .error e
  | none =>
    if !decodeOk then .error "Corrupted or unsupported image format"
    else
      let r := engine_loop cfg oracles regionCount 0 cfg.maxIterations [] 0
      .ok r.1 r.2.1 r.2.2 (decide (0 < r.1.length))

/-! ### Specification-side readings of the history -/

/-- The maximal confidence over the completed entries (0 when none). -/
def hist_max_conf : List HistEntry → ℚ
  | [] => 0
  | HistEntry.entry _ _ c _ :: rest => max c (hist_max_conf rest)
  | HistEntry.failed _ :: rest => hist_max_conf rest

/-- The text of the earliest completed entry carrying confidence `m`. -/
def hist_first_text_with (m : ℚ) : List HistEntry → List Char
  | [] => []
  | HistEntry.entry _ t c _ :: rest =>
    if c = m then t else hist_first_text_with m rest
  | HistEntry.failed _ :: rest => hist_first_text_with m rest

/-- The best-text policy the code implements: the text of the earliest
completed entry achieving the maximal confidence, when that maximum is
positive; the empty string otherwise. -/
def spec_best_text (hist : List HistEntry) : List Char :=
  if 0 < hist_max_conf hist then hist_first_text_with (hist_max_conf hist) hist
  else []

/-- What the history records at one position: a `failed` record exactly when
that iteration's preprocessing or enhancement raised; a completed record
carries the scorer's confidence of its text, region passes happen only at
iteration index 1 (record iteration 2) and carry the per-region join, and
full-page passes carry the whole-page text (empty when extraction raised). -/
def entry_matches (o : IterOracle) (n : Nat) : Option HistEntry → Prop
  | some (HistEntry.failed m) =>
    m = n ∧ (o.preprocessFails = true ∨ o.enhanceFails = true)
  | some (HistEntry.entry m t c isR) =>
    m = n ∧ o.preprocessFails = false ∧ o.enhanceFails = false ∧
    c = ConfidenceScorer.calculate ConfidenceScorer.default_markers t ∧
    (isR = true → n = 2 ∧ t = ocr_regions o.regionTexts) ∧
    (isR = false → t = full_text o)
  | none => False

theorem hist_max_conf_nonneg (hist : List HistEntry) : 0 ≤ hist_max_conf hist := by
  induction hist with
  | nil => exact le_refl 0
  | cons e rest ih =>
    cases e with
    | entry m t c isR => exact le_trans ih (le_max_right c _)
    | failed m => exact ih

theorem run_single_none_iff (cfg : EngineConfig) (o : IterOracle) (i : Nat)
    (bc : ℚ) (rc : Nat) :
    run_single_iteration cfg o i bc rc = none ↔
      (o.preprocessFails = true ∨ o.enhanceFails = true) := by
  unfold run_single_iteration
  by_cases h1 : o.preprocessFails = true
  · rw [if_pos h1]
    simp [h1]
  · rw [if_neg h1]
    dsimp only
    by_cases h2 : o.enhanceFails = true
    · rw [if_pos h2]
      simp [h1, h2]
    · rw [if_neg h2]
      simp [h1, h2]

theorem run_single_some_spec (cfg : EngineConfig) (o : IterOracle) (i : Nat)
    (bc : ℚ) (rc : Nat) (t : List Char) (c : ℚ) (isR : Bool)
    (h : run_single_iteration cfg o i bc rc = some (t, c, isR)) :
    o.preprocessFails = false ∧ o.enhanceFails = false ∧
    isR = should_use_region_ocr cfg i bc rc ∧
    t = (if isR then ocr_regions o.regionTexts else full_text o) ∧
    c = ConfidenceScorer.calculate ConfidenceScorer.default_markers t := by
  unfold run_single_iteration at h
  by_cases h1 : o.preprocessFails = true
  · rw [if_pos h1] at h
    exact absurd h (by simp)
  · rw [if_neg h1] at h
    dsimp only at h
    by_cases h2 : o.enhanceFails = true
    · rw [if_pos h2] at h
      exact absurd h (by simp)
    · rw [if_neg h2] at h
      simp only [Option.some.injEq, Prod.mk.injEq] at h
      obtain ⟨ht, hc, hr⟩ := h
      subst hr
      refine ⟨by simpa using h1, by simpa using h2, rfl, ht.symm, ?_⟩
      rw [← ht]
      exact hc.symm

theorem engine_loop_succ_none (cfg : EngineConfig) (oracles : Nat → IterOracle)
    (rc i fuel : Nat) (bt : List Char) (bc : ℚ)
    (h : run_single_iteration cfg (oracles i) i bc rc = none) :
    engine_loop cfg oracles rc i (fuel + 1) bt bc =
      ((engine_loop cfg oracles rc (i + 1) fuel bt bc).1,
       (engine_loop cfg oracles rc (i + 1) fuel bt bc).2.1,
       HistEntry.failed (i + 1) ::
         (engine_loop cfg oracles rc (i + 1) fuel bt bc).2.2) := by
  conv_lhs => rw [engine_loop]
  rw [h]

theorem engine_loop_succ_upd (cfg : EngineConfig) (oracles : Nat → IterOracle)
    (rc i fuel : Nat) (bt : List Char) (bc : ℚ) (t : List Char) (c : ℚ) (isR : Bool)
    (h : run_single_iteration cfg (oracles i) i bc rc = some (t, c, isR))
    (hg : t ≠ [] ∧ bc < c) :
    engine_loop cfg oracles rc i (fuel + 1) bt bc =
      ((engine_loop cfg oracles rc (i + 1) fuel t c).1,
       (engine_loop cfg oracles rc (i + 1) fuel t c).2.1,
       HistEntry.entry (i + 1) t c isR ::
         (engine_loop cfg oracles rc (i + 1) fuel t c).2.2) := by
  conv_lhs => rw [engine_loop]
  rw [h]
  dsimp only
  rw [if_pos hg]

theorem engine_loop_succ_keep (cfg : EngineConfig) (oracles : Nat → IterOracle)
    (rc i fuel : Nat) (bt : List Char) (bc : ℚ) (t : List Char) (c : ℚ) (isR : Bool)
    (h : run_single_iteration cfg (oracles i) i bc rc = some (t, c, isR))
    (hg : ¬(t ≠ [] ∧ bc < c)) :
    engine_loop cfg oracles rc i (fuel + 1) bt bc =
      ((engine_loop cfg oracles rc (i + 1) fuel bt bc).1,
       (engine_loop cfg oracles rc (i + 1) fuel bt bc).2.1,
       HistEntry.entry (i + 1) t c isR ::
         (engine_loop cfg oracles rc (i + 1) fuel bt bc).2.2) := by
  conv_lhs => rw [engine_loop]
  rw [h]
  dsimp only
  rw [if_neg hg]

/-- The loop invariant: the history has one record per pass, each record
matches its pass's oracle, the final best confidence is the running maximum,
and the final best text is the earliest argmax text once some pass strictly
beats the incoming best. -/
theorem engine_loop_spec (cfg : EngineConfig) (oracles : Nat → IterOracle)
    (rc : Nat) :
    ∀ (fuel i : Nat) (bt : List Char) (bc : ℚ), 0 ≤ bc →
    (engine_loop cfg oracles rc i fuel bt bc).2.2.length = fuel ∧
    (∀ k, k < fuel →
      entry_matches (oracles (i + k)) (i + k + 1)
        ((engine_loop cfg oracles rc i fuel bt bc).2.2.get? k)) ∧
    (engine_loop cfg oracles rc i fuel bt bc).2.1 =
      max bc (hist_max_conf (engine_loop cfg oracles rc i fuel bt bc).2.2) ∧
    (engine_loop cfg oracles rc i fuel bt bc).1 =
      (if bc < hist_max_conf (engine_loop cfg oracles rc i fuel bt bc).2.2 then
        hist_first_text_with
          (hist_max_conf (engine_loop cfg oracles rc i fuel bt bc).2.2)
          (engine_loop cfg oracles rc i fuel bt bc).2.2
      else bt) := by
  intro fuel
  induction fuel with
  | zero =>
    intro i bt bc hbc
    refine ⟨rfl, fun k hk => absurd hk (by omega), ?_, ?_⟩
    · show bc = max bc (hist_max_conf [])
      rw [show hist_max_conf [] = 0 from rfl, max_eq_left hbc]
    · show bt = if bc < hist_max_conf [] then _ else bt
      rw [show hist_max_conf [] = 0 from rfl, if_neg (not_lt.mpr hbc)]
  | succ fuel ih =>
    intro i bt bc hbc
    cases hrun : run_single_iteration cfg (oracles i) i bc rc with
    | none =>
      rw [engine_loop_succ_none cfg oracles rc i fuel bt bc hrun]
      dsimp only
      obtain ⟨ihlen, ihmatch, ihconf, ihtext⟩ := ih (i + 1) bt bc hbc
      refine ⟨by simpa using ihlen, ?_, ?_, ?_⟩
      · intro k hk
        cases k with
        | zero =>
          show entry_matches (oracles (i + 0)) (i + 0 + 1)
            (some (HistEntry.failed (i + 1)))
          rw [Nat.add_zero]
          exact ⟨rfl, (run_single_none_iff cfg (oracles i) i bc rc).mp hrun⟩
        | succ k =>
          have hik : i + (k + 1) = (i + 1) + k := by omega
          have hm := ihmatch k (by omega)
          simp only [List.get?_cons_succ]
          rw [hik]
          exact hm
      · rw [show hist_max_conf (HistEntry.failed (i + 1) ::
          (engine_loop cfg oracles rc (i + 1) fuel bt bc).2.2) =
          hist_max_conf (engine_loop cfg oracles rc (i + 1) fuel bt bc).2.2 from rfl]
        exact ihconf
      · rw [show hist_max_conf (HistEntry.failed (i + 1) ::
          (engine_loop cfg oracles rc (i + 1) fuel bt bc).2.2) =
          hist_max_conf (engine_loop cfg oracles rc (i + 1) fuel bt bc).2.2 from rfl]
        rw [show hist_first_text_with
          (hist_max_conf (engine_loop cfg oracles rc (i + 1) fuel bt bc).2.2)
          (HistEntry.failed (i + 1) ::
            (engine_loop cfg oracles rc (i + 1) fuel bt bc).2.2) =
          hist_first_text_with
            (hist_max_conf (engine_loop cfg oracles rc (i + 1) fuel bt bc).2.2)
            (engine_loop cfg oracles rc (i + 1) fuel bt bc).2.2 from rfl]
        exact ihtext
    | some val =>
      obtain ⟨t, c, isR⟩ := val
      obtain ⟨hpf, hef, hisr, htxt, hcval⟩ :=
        run_single_some_spec cfg (oracles i) i bc rc t c isR hrun
      have hc0 : 0 ≤ c := by
        rw [hcval]
        exact ConfidenceScorer.calculate_nonneg _ _
      have hmatch0 : entry_matches (oracles i) (i + 1)
          (some (HistEntry.entry (i + 1) t c isR)) := by
        refine ⟨rfl, hpf, hef, hcval, ?_, ?_⟩
        · intro hr
          rw [hr] at hisr htxt
          have hs : should_use_region_ocr cfg i bc rc = true := hisr.symm
          unfold should_use_region_ocr at hs
          rw [decide_eq_true_iff] at hs
          refine ⟨by omega, ?_⟩
          rw [htxt, if_pos rfl]
        · intro hr
          rw [hr] at htxt
          rw [htxt]
          simp
      by_cases hg : t ≠ [] ∧ bc < c
      · rw [engine_loop_succ_upd cfg oracles rc i fuel bt bc t c isR hrun hg]
        dsimp only
        obtain ⟨ihlen, ihmatch, ihconf, ihtext⟩ := ih (i + 1) t c hc0
        set rest := (engine_loop cfg oracles rc (i + 1) fuel t c).2.2 with hrest
        have hmaxcons : hist_max_conf (HistEntry.entry (i + 1) t c isR :: rest) =
            max c (hist_max_conf rest) := rfl
        refine ⟨by simpa using ihlen, ?_, ?_, ?_⟩
        · intro k hk
          cases k with
          | zero =>
            show entry_matches (oracles (i + 0)) (i + 0 + 1)
              (some (HistEntry.entry (i + 1) t c isR))
            rw [Nat.add_zero]
            exact hmatch0
          | succ k =>
            have hik : i + (k + 1) = (i + 1) + k := by omega
            have hm := ihmatch k (by omega)
            simp only [List.get?_cons_succ]
            rw [hik]
            exact hm
        · rw [hmaxcons, ihconf]
          rw [max_eq_right (le_trans (le_of_lt hg.2) (le_max_left c _))]
        · rw [hmaxcons, ihtext]
          by_cases hcm : c < hist_max_conf rest
          · rw [max_eq_right (le_of_lt hcm)]
            rw [if_pos hcm, if_pos (lt_trans hg.2 hcm)]
            show hist_first_text_with (hist_max_conf rest) rest =
              hist_first_text_with (hist_max_conf rest)
                (HistEntry.entry (i + 1) t c isR :: rest)
            rw [show hist_first_text_with (hist_max_conf rest)
              (HistEntry.entry (i + 1) t c isR :: rest) =
              (if c = hist_max_conf rest then t
               else hist_first_text_with (hist_max_conf rest) rest) from rfl]
            rw [if_neg (ne_of_lt hcm)]
          · rw [max_eq_left (not_lt.mp hcm)]
            rw [if_neg hcm, if_pos hg.2]
            rw [show hist_first_text_with c
              (HistEntry.entry (i + 1) t c isR :: rest) =
              (if c = c then t else hist_first_text_with c rest) from rfl]
            rw [if_pos rfl]
      · have hcle : c ≤ bc := by
          by_contra hlt
          push_neg at hlt
          rcases not_and_or.mp hg with hte | hbcc
          · push_neg at hte
            rw [hte] at hcval
            rw [ConfidenceScorer.calculate_nil] at hcval
            rw [hcval] at hlt
            exact absurd (lt_of_le_of_lt hbc hlt) (lt_irrefl 0)
          · exact hbcc hlt
        rw [engine_loop_succ_keep cfg oracles rc i fuel bt bc t c isR hrun hg]
        dsimp only
        obtain ⟨ihlen, ihmatch, ihconf, ihtext⟩ := ih (i + 1) bt bc hbc
        set rest := (engine_loop cfg oracles rc (i + 1) fuel bt bc).2.2 with hrest
        have hmaxcons : hist_max_conf (HistEntry.entry (i + 1) t c isR :: rest) =
            max c (hist_max_conf rest) := rfl
        refine ⟨by simpa using ihlen, ?_, ?_, ?_⟩
        · intro k hk
          cases k with
          | zero =>
            show entry_matches (oracles (i + 0)) (i + 0 + 1)
              (some (HistEntry.entry (i + 1) t c isR))
            rw [Nat.add_zero]
            exact hmatch0
          | succ k =>
            have hik : i + (k + 1) = (i + 1) + k := by omega
            have hm := ihmatch k (by omega)
            simp only [List.get?_cons_succ]
            rw [hik]
            exact hm
        · rw [hmaxcons, ihconf]
          rw [← max_assoc, max_eq_left hcle]
        · rw [hmaxcons, ihtext]
          by_cases hbm : bc < hist_max_conf rest
          · have hcm : c < hist_max_conf rest := lt_of_le_of_lt hcle hbm
            rw [max_eq_right (le_of_lt hcm)]
            rw [if_pos hbm, if_pos hbm]
            rw [show hist_first_text_with (hist_max_conf rest)
              (HistEntry.entry (i + 1) t c isR :: rest) =
              (if c = hist_max_conf rest then t
               else hist_first_text_with (hist_max_conf rest) rest) from rfl]
            rw [if_neg (ne_of_lt hcm)]
          · have hbig : max c (hist_max_conf rest) ≤ bc :=
              max_le hcle (not_lt.mp hbm)
            rw [if_neg hbm, if_neg (not_lt.mpr hbig)]

end IterativeOCREngine

/-- C1 (amended): on the standard path with valid, decodable input, the
response carries exactly one history record per pass; its `text` is the text
of the earliest iteration achieving the maximal confidence when that maximum
is positive, and the empty string otherwise (an iteration can only become
the best text through a strictly positive confidence and nonempty text); its
`confidence` is the maximum over completed iterations (0 when none); a pass
whose preprocessing or inter-iteration enhancement raises is recorded as
`{iteration, error: "failed"}` and never updates the best; and a pass whose
whole-page extraction raises is recorded as a completed full-page entry with
empty text and confidence 0 — not as a failed entry — and never updates the
best either. -/
theorem engine_best_text_policy (cfg : IterativeOCREngine.EngineConfig)
    (inputLen regionCount : Nat) (oracles : Nat → IterativeOCREngine.IterOracle)
    (hv : IterativeOCREngine.validate_image inputLen cfg.maxImageSizeMb = none) :
    (IterativeOCREngine.process_image cfg inputLen true regionCount oracles).isOk
        = true ∧
    (IterativeOCREngine.process_image cfg inputLen true regionCount
        oracles).histOf.length = cfg.maxIterations ∧
    (IterativeOCREngine.process_image cfg inputLen true regionCount oracles).textOf =
      IterativeOCREngine.spec_best_text
        (IterativeOCREngine.process_image cfg inputLen true regionCount
          oracles).histOf ∧
    (IterativeOCREngine.process_image cfg inputLen true regionCount oracles).confOf =
      IterativeOCREngine.hist_max_conf
        (IterativeOCREngine.process_image cfg inputLen true regionCount
          oracles).histOf ∧
    (∀ k, k < cfg.maxIterations →
      IterativeOCREngine.entry_matches (oracles k) (k + 1)
        ((IterativeOCREngine.process_image cfg inputLen true regionCount
          oracles).histOf.get? k)) := by
  have hresp : IterativeOCREngine.process_image cfg inputLen true regionCount oracles =
      IterativeOCREngine.EngineResponse.ok
        (IterativeOCREngine.engine_loop cfg oracles regionCount 0
          cfg.maxIterations [] 0).1
        (IterativeOCREngine.engine_loop cfg oracles regionCount 0
          cfg.maxIterations [] 0).2.1
        (IterativeOCREngine.engine_loop cfg oracles regionCount 0
          cfg.maxIterations [] 0).2.2
        (decide (0 < (IterativeOCREngine.engine_loop cfg oracles regionCount 0
          cfg.maxIterations [] 0).1.length)) := by
    unfold IterativeOCREngine.process_image
    rw [hv]
    rfl
  obtain ⟨hlen, hmatch, hconf, htext⟩ :=
    IterativeOCREngine.engine_loop_spec cfg oracles regionCount
      cfg.maxIterations 0 [] 0 (le_refl 0)
  rw [hresp]
  simp only [IterativeOCREngine.EngineResponse.isOk,
    IterativeOCREngine.EngineResponse.textOf, IterativeOCREngine.EngineResponse.confOf,
    IterativeOCREngine.EngineResponse.histOf]
  refine ⟨trivial, hlen, ?_, ?_, ?_⟩
  · rw [htext]
    rfl
  · rw [hconf, max_eq_right (IterativeOCREngine.hist_max_conf_nonneg _)]
  · intro k hk
    have hm := hmatch k hk
    simpa using hm

theorem engine_best_text_policy_witness :
    (IterativeOCREngine.validate_image 1
        IterativeOCREngine.default_config.maxImageSizeMb = none) ∧
    ((IterativeOCREngine.process_image IterativeOCREngine.default_config 1 true 0
        (fun _ => ⟨false, true, "x".data, [], false⟩)).isOk = true ∧
     (IterativeOCREngine.process_image IterativeOCREngine.default_config 1 true 0
        (fun _ => ⟨false, true, "x".data, [], false⟩)).histOf.length =
        IterativeOCREngine.default_config.maxIterations ∧
     (IterativeOCREngine.process_image IterativeOCREngine.default_config 1 true 0
        (fun _ => ⟨false, true, "x".data, [], false⟩)).textOf =
        IterativeOCREngine.spec_best_text
          (IterativeOCREngine.process_image IterativeOCREngine.default_config 1 true 0
            (fun _ => ⟨false, true, "x".data, [], false⟩)).histOf ∧
     (IterativeOCREngine.process_image IterativeOCREngine.default_config 1 true 0
        (fun _ => ⟨false, true, "x".data, [], false⟩)).confOf =
        IterativeOCREngine.hist_max_conf
          (IterativeOCREngine.process_image IterativeOCREngine.default_config 1 true 0
            (fun _ => ⟨false, true, "x".data, [], false⟩)).histOf ∧
     (∀ k, k < IterativeOCREngine.default_config.maxIterations →
       IterativeOCREngine.entry_matches
         ((fun _ => (⟨false, true, "x".data, [], false⟩ :
             IterativeOCREngine.IterOracle)) k) (k + 1)
         ((IterativeOCREngine.process_image IterativeOCREngine.default_config 1 true 0
            (fun _ => ⟨false, true, "x".data, [], false⟩)).histOf.get? k))) :=
  ⟨by decide,
   engine_best_text_policy IterativeOCREngine.default_config 1 0
     (fun _ => ⟨false, true, "x".data, [], false⟩) (by decide)⟩

/-- C1 counterexample configuration: one iteration, whose whole-page
extraction raises. -/
def cex1_cfg : IterativeOCREngine.EngineConfig := { maxIterations := 1 }

def cex1_oracle : Nat → IterativeOCREngine.IterOracle :=
  fun _ => ⟨false, true, "ignored".data, [], false⟩

/-- C1 counterexample: with valid input and a single pass whose extraction
(`pytesseract.image_to_string`) raises, the recorded history entry is a
completed full-page record with empty text — the exception is swallowed at
`ocr_engine.py` lines 115-120 and the pass continues with `text = ""` — and
not the `{iteration: 1, error: "failed"}` record the claim requires for an
iteration whose extraction raises. -/
theorem engine_failed_entry_counterexample :
    (IterativeOCREngine.process_image cex1_cfg 1 true 0 cex1_oracle).histOf =
      [IterativeOCREngine.HistEntry.entry 1 [] 0 false] ∧
    ([IterativeOCREngine.HistEntry.entry 1 [] 0 false] :
        List IterativeOCREngine.HistEntry) ≠
      [IterativeOCREngine.HistEntry.failed 1] := by
  constructor
  · rfl
  · intro h
    simp at h

/-- C2: region-based extraction triggers exactly as claimed.  The trigger
predicate holds iff the pass index is 1, the pre-pass best confidence is
strictly below the configured threshold (default 0.5) and more than one
region was detected; a completed pass is a region pass iff the trigger held,
in which case its text is the per-region OCR join over padded ROIs; and at
the whole-process level, a region-pass record can only sit at position 1 of
the history — no other pass ever uses region mode. -/
theorem region_ocr_trigger :
    (∀ (cfg : IterativeOCREngine.EngineConfig) (i : Nat) (conf : ℚ) (n : Nat),
      IterativeOCREngine.should_use_region_ocr cfg i conf n = true ↔
        (i = 1 ∧ conf < cfg.confidenceThreshold ∧ 1 < n)) ∧
    IterativeOCREngine.default_config.confidenceThreshold = 1/2 ∧
    (∀ (cfg : IterativeOCREngine.EngineConfig) (o : IterativeOCREngine.IterOracle)
      (i : Nat) (bc : ℚ) (rc : Nat) (t : List Char) (c : ℚ) (isR : Bool),
      IterativeOCREngine.run_single_iteration cfg o i bc rc = some (t, c, isR) →
      isR = IterativeOCREngine.should_use_region_ocr cfg i bc rc ∧
      (isR = true → t = IterativeOCREngine.ocr_regions o.regionTexts) ∧
      (isR = false → t = IterativeOCREngine.full_text o)) ∧
    (∀ (cfg : IterativeOCREngine.EngineConfig) (inputLen : Nat) (decodeOk : Bool)
      (rc : Nat) (oracles : Nat → IterativeOCREngine.IterOracle)
      (k n : Nat) (t : List Char) (c : ℚ),
      (IterativeOCREngine.process_image cfg inputLen decodeOk rc
          oracles).histOf.get? k =
        some (IterativeOCREngine.HistEntry.entry n t c true) → k = 1) := by
  refine ⟨?_, rfl, ?_, ?_⟩
  · intro cfg i conf n
    unfold IterativeOCREngine.should_use_region_ocr
    exact decide_eq_true_iff
  · intro cfg o i bc rc t c isR h
    obtain ⟨hpf, hef, hisr, htxt, hcval⟩ :=
      IterativeOCREngine.run_single_some_spec cfg o i bc rc t c isR h
    refine ⟨hisr, ?_, ?_⟩
    · intro hr
      rw [hr] at htxt
      rw [htxt]
      simp
    · intro hr
      rw [hr] at htxt
      rw [htxt]
      simp
  · intro cfg inputLen decodeOk rc oracles k n t c h
    cases hval : IterativeOCREngine.validate_image inputLen cfg.maxImageSizeMb with
    | some e =>
      unfold IterativeOCREngine.process_image at h
      rw [hval] at h
      simp [IterativeOCREngine.EngineResponse.histOf] at h
    | none =>
      cases decodeOk with
      | false =>
        unfold IterativeOCREngine.process_image at h
        rw [hval] at h
        simp [IterativeOCREngine.EngineResponse.histOf] at h
      | true =>
        have hresp : IterativeOCREngine.process_image cfg inputLen true rc oracles =
            IterativeOCREngine.EngineResponse.ok
              (IterativeOCREngine.engine_loop cfg oracles rc 0
                cfg.maxIterations [] 0).1
              (IterativeOCREngine.engine_loop cfg oracles rc 0
                cfg.maxIterations [] 0).2.1
              (IterativeOCREngine.engine_loop cfg oracles rc 0
                cfg.maxIterations [] 0).2.2
              (decide (0 < (IterativeOCREngine.engine_loop cfg oracles rc 0
                cfg.maxIterations [] 0).1.length)) := by
          unfold IterativeOCREngine.process_image
          rw [hval]
          rfl
        rw [hresp] at h
        simp only [IterativeOCREngine.EngineResponse.histOf] at h
        obtain ⟨hlen, hmatch, hconf, htext⟩ :=
          IterativeOCREngine.engine_loop_spec cfg oracles rc
            cfg.maxIterations 0 [] 0 (le_refl 0)
        have hk : k < cfg.maxIterations := by
          obtain ⟨hlt, _⟩ := List.get?_eq_some.mp h
          rw [hlen] at hlt
          exact hlt
        have hm := hmatch k hk
        rw [show (0 : Nat) + k = k from by omega] at hm
        rw [h] at hm
        obtain ⟨_, _, _, _, hreg, _⟩ := hm
        obtain ⟨h2, _⟩ := hreg rfl
        omega

theorem region_ocr_trigger_witness :
    ((1 : Nat) = 1 ∧ (1/4 : ℚ) <
        IterativeOCREngine.default_config.confidenceThreshold ∧ (1 : Nat) < 3) ∧
    IterativeOCREngine.should_use_region_ocr
      IterativeOCREngine.default_config 1 (1/4) 3 = true := by
  have h : (1 : Nat) = 1 ∧ (1/4 : ℚ) <
      IterativeOCREngine.default_config.confidenceThreshold ∧ (1 : Nat) < 3 := by
    refine ⟨rfl, ?_, by omega⟩
    rw [show IterativeOCREngine.default_config.confidenceThreshold = 1/2 from rfl]
    norm_num
  exact ⟨h, (region_ocr_trigger.1 IterativeOCREngine.default_config 1 (1/4) 3).mpr h⟩

end ALOCR
